import Mathlib

/-!
# Verification of the vibe-board report ingestion engine

A shallow embedding of `src/server/index.js` (the report ingestion and
machine-identity reconciliation engine) and proofs about it.

Modelling conventions, used consistently below:

* JavaScript strings are Lean `String`s.  `String.trim`-like behaviour is
  modelled by `jsTrim` (drops the ASCII whitespace characters handled by the
  common inputs), `toLowerCase` by `jsLower` (ASCII lowering, which agrees
  with JS on the ASCII inputs this server manipulates).
* Timestamps are stored in the JSON state as ISO strings and are only ever
  consumed through `Date.parse` / `normalizeTimestamp`.  We model a timestamp
  slot as `Option Int` — the parsed millisecond value, with `none` standing
  for a missing, empty or unparseable value.  `normalizeTimestamp` is then
  the identity on this representation, and the JS `ts || fallback` idiom
  becomes `ts <|> fallback`.
* Optional JSON string fields that the code reads through a normalizer
  (`display_name`, `source`, …) are modelled as `String` with `""` standing
  for `undefined` — faithful because every read normalizes blank to the same
  behaviour as missing.
* `Map` insertion-order semantics (`set` keeps the original position,
  updates the value) are modelled by `listSet` over association lists.
* Each request handler takes the current clock `nowMs : Int` explicitly
  (the code calls `new Date()` / `Date.now()`; we use one clock value per
  request).
* `Array.prototype.sort` with a consistent comparator is modelled by a
  stable insertion sort (`sortBy`).
-/

namespace VibeBoard

/-- ASCII whitespace recognised by the JS `trim`/`\s` on the data this
server handles. -/
def isWs (c : Char) : Bool :=
  c = ' ' ∨ c = '\t' ∨ c = '\n' ∨ c = '\r'

/-- Characters removed at both ends by `String.prototype.trim`. -/
def trimChars (l : List Char) : List Char :=
  ((l.dropWhile isWs).reverse.dropWhile isWs).reverse

/-- Model of `String.prototype.trim`. -/
def jsTrim (s : String) : String :=
  String.mk (trimChars s.data)

/-- Model of `String.prototype.toLowerCase` (ASCII). -/
def jsLower (s : String) : String :=
  String.mk (s.data.map Char.toLower)

/-- `a.startsWith b` on character lists. -/
def listStartsWith : List Char → List Char → Bool
  | _, [] => true
  | [], _ :: _ => false
  | c :: cs, d :: ds => c = d ∧ listStartsWith cs ds

/-- Model of `String.prototype.startsWith`. -/
def jsStartsWith (s pre : String) : Bool :=
  listStartsWith s.data pre.data

/-- `Set.prototype.add`: append if not already present (insertion order). -/
def setAdd (l : List String) (x : String) : List String :=
  if l.contains x then l else l ++ [x]

/-- Association-list analogue of `Map.prototype.set`: an existing key keeps
its position and gets the new value, a new key is appended. -/
def listSet {α : Type} (l : List (String × α)) (k : String) (v : α) :
    List (String × α) :=
  match l with
  | [] => [(k, v)]
  | (k0, v0) :: rest =>
    if k0 = k then (k0, v) :: rest else (k0, v0) :: listSet rest k v

/-- Association-list analogue of `Map.prototype.get`. -/
def listGet {α : Type} (l : List (String × α)) (k : String) : Option α :=
  match l with
  | [] => none
  | (k0, v0) :: rest => if k0 = k then some v0 else listGet rest k

/-- `normalizeMachineFingerprint` from `src/server/index.js`. -/
def normalizeMachineFingerprint (value fallbackMachineId : String) : String :=
  let raw := jsTrim value
  if raw ≠ "" then raw else jsTrim fallbackMachineId

/-- `normalizeDisplayName` from `src/server/index.js`. -/
def normalizeDisplayName (value : String) : String :=
  jsTrim value

/-- `normalizeAgentName` from `src/server/index.js`; the one-argument JS
call sites pass `""` for the omitted fallback. -/
def normalizeAgentName (value fallbackMachineId : String) : String :=
  let raw := jsTrim value
  if raw ≠ "" then raw
  else
    let fallback := jsTrim fallbackMachineId
    if fallback ≠ "" then fallback else "Unknown"

/-- `machineIdentityKey` from `src/server/index.js`. -/
def machineIdentityKey (fingerprint agentName : String) : String :=
  fingerprint ++ "::" ++ agentName

/-- `taskKey` from `src/server/index.js`. -/
def taskKey (machineId taskId : String) : String :=
  machineId ++ "::" ++ taskId

/-- The separator list used by `composeMachineTitle`. -/
def titleSeparators : List String := [" · ", " / ", " - "]

/-- The separator loop inside `composeMachineTitle`. -/
def composeTitleLoop (custom agent : String) : List String → String
  | [] => custom ++ " (" ++ agent ++ ")"
  | sep :: rest =>
    let pre := custom ++ sep
    if jsStartsWith agent pre then
      let suffix := jsTrim (String.mk (agent.data.drop pre.data.length))
      if suffix ≠ "" then custom ++ " (" ++ suffix ++ ")"
      else composeTitleLoop custom agent rest
    else composeTitleLoop custom agent rest

/-- `composeMachineTitle` from `src/server/index.js`. -/
def composeMachineTitle (displayName agentName : String) : String :=
  let custom := normalizeDisplayName displayName
  let agent := normalizeAgentName agentName ""
  if custom = "" then agent
  else if agent = "" ∨ custom = agent then custom
  else composeTitleLoop custom agent titleSeparators

/-- `normalizeTaskStatus` from `src/server/index.js`: the alias map lookup
(`running/active → in_progress`, `done/completed → verified`,
`completed_pending_verification/awaiting_verification →
awaiting_verification`), identity for other non-blank values, and
`in_progress` for blank ones. -/
def normalizeTaskStatus (status : String) : String :=
  let value := jsTrim status
  if value = "running" then "in_progress"
  else if value = "active" then "in_progress"
  else if value = "done" then "verified"
  else if value = "completed" then "verified"
  else if value = "completed_pending_verification" then "awaiting_verification"
  else if value = "awaiting_verification" then "awaiting_verification"
  else if value = "" then "in_progress"
  else value

/-- The compacting step of `normalizeTaskSource`: lowercase and strip the
characters matched by `/[\s_-]+/g`. -/
def compactSource (s : String) : String :=
  String.mk ((jsLower s).data.filter
    (fun c => ¬ (isWs c ∨ c = '_' ∨ c = '-')))

/-- `normalizeTaskSource` from `src/server/index.js`. -/
def normalizeTaskSource (value : String) : String :=
  let raw := jsTrim value
  if raw = "" then ""
  else
    let compact := compactSource raw
    if compact = "codex" ∨ compact = "codexadapter" ∨ compact = "codexlocal" then "Codex"
    else if compact = "claudecode" ∨ compact = "claude" then "Claude Code"
    else if compact = "opencode" then "OpenCode"
    else raw

/-- Lower-case ASCII letters and digits, the characters kept by the
`/[^a-z0-9]+/g` replacement. -/
def isSlugChar (c : Char) : Bool :=
  ('a' ≤ c ∧ c ≤ 'z') ∨ ('0' ≤ c ∧ c ≤ '9')

/-- Replace every non-slug character by `'-'`. -/
def dashifyChars (l : List Char) : List Char :=
  l.map (fun c => if isSlugChar c then c else '-')

/-- Collapse runs of `'-'` to a single `'-'` (together with `dashifyChars`
this models replacing each `/[^a-z0-9]+/` run by one `'-'`). -/
def squeezeDashes : List Char → List Char
  | [] => []
  | c :: rest =>
    if c = '-' ∧ rest.head? = some '-' then squeezeDashes rest
    else c :: squeezeDashes rest

/-- Strip leading and trailing `'-'` (the `/^-+|-+$/g` replacement). -/
def stripDashes (l : List Char) : List Char :=
  ((l.dropWhile (· = '-')).reverse.dropWhile (· = '-')).reverse

/-- `value.toLowerCase().replace(/[^a-z0-9]+/g, '-')` as used in
`normalizeSourceToken` and `pickMachineRecordId`. -/
def dashSlug (s : String) : String :=
  String.mk (squeezeDashes (dashifyChars (jsLower s).data))

/-- `normalizeSourceToken` from `src/server/index.js`. -/
def normalizeSourceToken (value : String) : String :=
  let source := normalizeTaskSource value
  if source = "" then ""
  else String.mk (stripDashes (dashSlug source).data)

/-- `composeMachineAgentName` from `src/server/index.js`. -/
def composeMachineAgentName (machineName source : String) : String :=
  let base := normalizeAgentName machineName ""
  let normalizedSource := normalizeTaskSource source
  if normalizedSource = "" then base
  else if jsLower base = jsLower normalizedSource then base
  else base ++ " · " ++ normalizedSource

/-! ## Data model (the persisted JSON state) -/

/-- A machine record (Card).  Timestamps are parsed-millisecond options,
`display_name = ""` models an absent field. -/
structure Machine where
  id : String
  name : String
  fingerprint : String
  aliases : List String
  last_seen : Option Int
  online_since : Option Int
  display_name : String
deriving Repr, DecidableEq

/-- A stored task record.  `source = ""` / `preview_images = []` model the
deleted/absent JSON fields. -/
structure Task where
  id : String
  machine_id : String
  title : String
  status : String
  source : String
  created_at : Option Int
  updated_at : Option Int
  preview_images : List String
deriving Repr, DecidableEq

/-- A history ledger event.  `from_status = none` models JSON `null`. -/
structure HistoryEvent where
  id : String
  event : String
  machine_id : String
  task_id : String
  title : String
  from_status : Option String
  to_status : String
  changed_at : Int
deriving Repr, DecidableEq

/-- The whole persisted state (`{machines, tasks, history}`). -/
structure DB where
  machines : List Machine
  tasks : List Task
  history : List HistoryEvent
deriving Repr, DecidableEq

/-- The empty store (what `loadDB` yields before any report). -/
def emptyDB : DB := ⟨[], [], []⟩

/-- One task entry of an inbound report.  `id = ""` / `title = ""` model
missing fields; `source` models `task.source || task?.metadata?.source`. -/
structure InTask where
  id : String
  title : String
  status : String
  source : String
  created_at : Option Int
  updated_at : Option Int
  preview_images : List String
deriving Repr, DecidableEq

/-- An inbound `POST /api/report` body.  `machine_id = ""` models a missing
machine id (the `!machineId` check). -/
structure Report where
  machine_id : String
  machine_name : String
  machine_fingerprint : String
  tasks : List InTask
deriving Repr, DecidableEq

/-! ## Configuration constants (default environment) -/

/-- `HISTORY_LIMIT` (default 5000). -/
def HISTORY_LIMIT : Nat := 5000

/-- `PREVIEW_IMAGE_LIMIT` (default 3). -/
def PREVIEW_IMAGE_LIMIT : Nat := 3

/-- `PREVIEW_IMAGE_MAX_LENGTH` (default 2 MiB). -/
def PREVIEW_IMAGE_MAX_LENGTH : Nat := 2 * 1024 * 1024

/-- `AGENT_OFFLINE_TIMEOUT_MS` (default 45 seconds; always positive). -/
def AGENT_OFFLINE_TIMEOUT_MS : Int := 45 * 1000

/-! ## Preview image validation -/

/-- `isSupportedImageUrl` from `src/server/index.js`: a
`data:image/...;base64,` URL or an `http(s)://` URL (case-insensitive,
anchored at the start). -/
def isSupportedImageUrl (value : String) : Bool :=
  if value = "" then false
  else
    let lower := jsLower value
    if jsStartsWith lower "http://" ∨ jsStartsWith lower "https://" then true
    else if jsStartsWith lower "data:image/" then
      let rest := lower.data.drop 11
      let mime := rest.takeWhile
        (fun c => ('a' ≤ c ∧ c ≤ 'z') ∨ ('0' ≤ c ∧ c ≤ '9') ∨ c = '.' ∨ c = '+' ∨ c = '-')
      mime.length > 0 ∧ listStartsWith (rest.drop mime.length) ";base64,".data
    else false

/-- The loop body of `normalizePreviewImages`: filter, bound the length,
deduplicate, stop at `PREVIEW_IMAGE_LIMIT`. -/
def previewImagesGo (acc : List String) : List String → List String
  | [] => acc
  | item :: rest =>
    let value := jsTrim item
    if value = "" ∨ ¬ isSupportedImageUrl value ∨
        value.data.length > PREVIEW_IMAGE_MAX_LENGTH ∨ acc.contains value then
      previewImagesGo acc rest
    else
      let out := acc ++ [value]
      if out.length ≥ PREVIEW_IMAGE_LIMIT then out else previewImagesGo out rest

/-- `normalizePreviewImages` from `src/server/index.js`. -/
def normalizePreviewImages (input : List String) : List String :=
  previewImagesGo [] input

/-! ## Deduplication passes (`ensureDBShape`) -/

/-- Remove blank/duplicate aliases, in first-occurrence order
(`dedupeAliases`). -/
def dedupeAliasesGo (seen : List String) : List String → List String
  | [] => []
  | a :: rest =>
    let value := jsTrim a
    if value = "" ∨ seen.contains value then dedupeAliasesGo seen rest
    else value :: dedupeAliasesGo (value :: seen) rest

/-- `dedupeAliases` from `src/server/index.js`. -/
def dedupeAliases (aliases : List String) : List String :=
  dedupeAliasesGo [] aliases

/-- The loop body of `dedupeMachines`: fold one machine into the keyed map.
`now` is the clock used for the `new Date().toISOString()` defaults. -/
def dedupeMachinesStep (now : Int) (keyed : List (String × Machine))
    (machine : Machine) : List (String × Machine) :=
  if machine.id = "" then keyed
  else
    let fingerprint := normalizeMachineFingerprint machine.fingerprint machine.id
    let agentName := normalizeAgentName machine.name machine.id
    let key := machineIdentityKey fingerprint agentName
    match listGet keyed key with
    | none =>
      listSet keyed key
        { id := machine.id
          name := agentName
          fingerprint := fingerprint
          aliases := dedupeAliases (machine.aliases ++ [machine.id])
          last_seen := machine.last_seen <|> some now
          online_since := machine.online_since <|> machine.last_seen <|> some now
          display_name := normalizeDisplayName machine.display_name }
    | some existing =>
      let aliases := dedupeAliases (existing.aliases ++ machine.aliases ++ [machine.id])
      let mergedDisplayName :=
        if normalizeDisplayName existing.display_name ≠ "" then
          normalizeDisplayName existing.display_name
        else normalizeDisplayName machine.display_name
      let mergedOnlineSince :=
        existing.online_since <|> machine.online_since <|>
          existing.last_seen <|> machine.last_seen <|> some now
      let useCurrent :=
        match existing.last_seen, machine.last_seen with
        | none, _ => true
        | some _, none => false
        | some e, some c => c > e
      if useCurrent then
        listSet keyed key
          { id := existing.id
            name := if agentName ≠ "" then agentName
                    else if existing.name ≠ "" then existing.name else machine.id
            fingerprint := fingerprint
            aliases := aliases
            last_seen := machine.last_seen <|> existing.last_seen
            online_since := mergedOnlineSince
            display_name := mergedDisplayName }
      else
        listSet keyed key
          { existing with
            aliases := aliases
            online_since := mergedOnlineSince
            display_name := mergedDisplayName }

/-- `dedupeMachines` from `src/server/index.js`. -/
def dedupeMachines (now : Int) (machines : List Machine) : List Machine :=
  (machines.foldl (dedupeMachinesStep now) []).map Prod.snd

/-- A stored task with its source and preview images re-normalized (the
record rebuilt by `dedupeStoredTasks`). -/
def normalizeStoredTask (task : Task) : Task :=
  { task with
    source := normalizeTaskSource task.source
    preview_images := normalizePreviewImages task.preview_images }

/-- The loop body of `dedupeStoredTasks`. -/
def dedupeStoredTasksStep (keyed : List (String × Task)) (task : Task) :
    List (String × Task) :=
  if task.id = "" ∨ task.machine_id = "" then keyed
  else listSet keyed (taskKey task.machine_id task.id)
    (normalizeStoredTask task)

/-- `dedupeStoredTasks` from `src/server/index.js`. -/
def dedupeStoredTasks (tasks : List Task) : List Task :=
  (tasks.foldl dedupeStoredTasksStep []).map Prod.snd

/-- `ensureDBShape` from `src/server/index.js`, applied by both `loadDB`
and `saveDB`. -/
def ensureDBShape (now : Int) (db : DB) : DB :=
  { machines := dedupeMachines now db.machines
    tasks := dedupeStoredTasks db.tasks
    history := db.history }

/-! ## Timestamp resolution, history ledger -/

/-- `resolveCreatedAt` from `src/server/index.js`.  Stored and inbound
timestamps are already normalized in our representation, so
`normalizeTimestamp` is the identity here. -/
def resolveCreatedAt (existing : Option Task)
    (incomingCreatedAt incomingUpdatedAt : Option Int) (now : Int) : Int :=
  let existingCreated := existing.bind (·.created_at)
  let existingUpdated := existing.bind (·.updated_at)
  match existingCreated with
  | some ec =>
    match incomingCreatedAt, existingUpdated with
    | some ic, some eu => if ec = eu ∧ ic ≠ ec then ic else ec
    | _, _ => ec
  | none => ((incomingCreatedAt <|> incomingUpdatedAt).getD now)

/-- `resolveUpdatedAt` from `src/server/index.js`.  (`createdAt` is always
a non-blank ISO string in the source, so the final `|| now` fallback never
fires; `now` is kept for signature fidelity.) -/
def resolveUpdatedAt (existing : Option Task) (incomingUpdatedAt : Option Int)
    (createdAt now : Int) : Int :=
  let _ := now
  ((incomingUpdatedAt <|> existing.bind (·.updated_at)).getD createdAt)

/-- `appendHistory` from `src/server/index.js`: push, then truncate from
the front down to `HISTORY_LIMIT`. -/
def appendHistory (history : List HistoryEvent) (event : HistoryEvent) :
    List HistoryEvent :=
  let h := history ++ [event]
  if h.length > HISTORY_LIMIT then h.drop (h.length - HISTORY_LIMIT) else h

/-! ## Incoming task handling -/

/-- The dedupe key used by `dedupeIncomingTasks`
(`id` or `id::source.toLowerCase()`). -/
def dedupeInKey (task : InTask) : String :=
  let source := normalizeTaskSource task.source
  if source = "" then task.id else task.id ++ "::" ++ jsLower source

/-- An inbound task with its source normalized (the `normalizedTask`
object built by both `dedupeIncomingTasks` and `splitTasksBySource`). -/
def normalizeInTask (task : InTask) : InTask :=
  { task with source := normalizeTaskSource task.source }

/-- The loop body of `dedupeIncomingTasks`. -/
def dedupeIncomingTasksStep (keyed : List (String × InTask)) (task : InTask) :
    List (String × InTask) :=
  if task.id = "" then keyed
  else listSet keyed (dedupeInKey task) (normalizeInTask task)

/-- `dedupeIncomingTasks` from `src/server/index.js`. -/
def dedupeIncomingTasks (tasks : List InTask) : List InTask :=
  (tasks.foldl dedupeIncomingTasksStep []).map Prod.snd

/-- One source group produced by `splitTasksBySource`. -/
structure TaskGroup where
  source : String
  tasks : List InTask
deriving Repr, DecidableEq

/-- Append a task to the group stored at `key`, creating the group at the
end if absent (`Map` insertion-order semantics). -/
def pushGroup (groups : List (String × TaskGroup)) (key : String)
    (t : InTask) (src : String) : List (String × TaskGroup) :=
  match groups with
  | [] => [(key, ⟨src, [t]⟩)]
  | (k, g) :: rest =>
    if k = key then (k, ⟨g.source, g.tasks ++ [t]⟩) :: rest
    else (k, g) :: pushGroup rest key t src

/-- The grouping key of `splitTasksBySource`
(`source.toLowerCase()` or `"__default__"`). -/
def splitKeyOf (task : InTask) : String :=
  let source := normalizeTaskSource task.source
  if source = "" then "__default__" else jsLower source

/-- The loop body of `splitTasksBySource`. -/
def splitTasksStep (groups : List (String × TaskGroup)) (task : InTask) :
    List (String × TaskGroup) :=
  if task.id = "" then groups
  else pushGroup groups (splitKeyOf task) (normalizeInTask task)
    (normalizeTaskSource task.source)

/-- `splitTasksBySource` from `src/server/index.js`. -/
def splitTasksBySource (tasks : List InTask) : List TaskGroup :=
  (tasks.foldl splitTasksStep []).map Prod.snd

/-! ## Machine lookup, id allocation and the merge pass -/

/-- The lookup predicate inside `findMachine`, for normalized
`fingerprint`/`agentName`. -/
def machineMatches (machineId fingerprint agentName : String)
    (m : Machine) : Bool :=
  if m.id = "" then false
  else
    let fp := normalizeMachineFingerprint m.fingerprint m.id
    let existingAgentName := normalizeAgentName m.name m.id
    if fp = fingerprint ∧ existingAgentName = agentName then true
    else (m.id = machineId ∨ m.aliases.contains machineId) ∧
      existingAgentName = agentName

/-- `findMachine` from `src/server/index.js`, returning the index of the
first match (the source mutates the found object in place). -/
def findMachineIdx (db : DB) (machineId machineFingerprint machineName : String) :
    Option Nat :=
  let fingerprint := normalizeMachineFingerprint machineFingerprint machineId
  let agentName := normalizeAgentName machineName machineId
  db.machines.findIdx? (machineMatches machineId fingerprint agentName)

/-- The disambiguation loop of `pickMachineRecordId` (`counter` from 1,
while `counter < 1000`, then the `Date.now()` fallback). -/
def pickIdLoop (db : DB) (baseId agentToken : String) (nowMs : Int) :
    Nat → Nat → String
  | 0, _ => baseId ++ "::" ++ toString nowMs
  | fuel + 1, counter =>
    let candidate := baseId ++ "::" ++ agentToken ++ "-" ++ toString counter
    if db.machines.any (fun m => m.id = candidate) then
      pickIdLoop db baseId agentToken nowMs fuel (counter + 1)
    else candidate

/-- `pickMachineRecordId` from `src/server/index.js`. -/
def pickMachineRecordId (db : DB)
    (machineId machineFingerprint machineName : String) (nowMs : Int) : String :=
  let baseId := jsTrim machineId
  if baseId = "" then ""
  else
    match db.machines.find? (fun m => m.id = baseId) with
    | none => baseId
    | some conflict =>
      let conflictFingerprint := normalizeMachineFingerprint conflict.fingerprint conflict.id
      let conflictAgentName := normalizeAgentName conflict.name conflict.id
      if conflictFingerprint = normalizeMachineFingerprint machineFingerprint machineId ∧
          conflictAgentName = normalizeAgentName machineName machineId then baseId
      else
        let agentToken0 :=
          String.mk ((dashSlug (normalizeAgentName machineName machineId)).data.take 32)
        let agentToken := if agentToken0 = "" then "agent" else agentToken0
        pickIdLoop db baseId agentToken nowMs 999 1

/-- Folding one duplicate card into the canonical one: the body of the
`for (const duplicate of duplicates)` loop in `mergeMachineRecords`.  The
accumulator carries the evolving canonical card, alias set, tasks and
history. -/
def mergeDuplicateStep (acc : Machine × List String × List Task × List HistoryEvent)
    (dup : Machine) : Machine × List String × List Task × List HistoryEvent :=
  let canon := acc.1
  let aliasSet := acc.2.1
  let tasks := acc.2.2.1
  let history := acc.2.2.2
  let aliasSet := dup.aliases.foldl setAdd (setAdd aliasSet dup.id)
  let canon :=
    if normalizeDisplayName canon.display_name = "" ∧
        normalizeDisplayName dup.display_name ≠ "" then
      { canon with display_name := normalizeDisplayName dup.display_name }
    else canon
  let canon :=
    if canon.online_since = none ∧ dup.online_since ≠ none then
      { canon with online_since := dup.online_since }
    else canon
  let canon :=
    match dup.last_seen with
    | none => canon
    | some dupSeen =>
      let newer :=
        match canon.last_seen with
        | none => true
        | some canonSeen => dupSeen > canonSeen
      if newer then
        { canon with
          last_seen := dup.last_seen
          name := if dup.name ≠ "" then dup.name else canon.name
          online_since := if dup.online_since ≠ none then dup.online_since
                          else canon.online_since }
      else canon
  let tasks := tasks.map (fun t =>
    if t.machine_id = dup.id then { t with machine_id := canon.id } else t)
  let history := history.map (fun h =>
    if h.machine_id = dup.id then { h with machine_id := canon.id } else h)
  (canon, aliasSet, tasks, history)

/-- `mergeMachineRecords` from `src/server/index.js`.  The canonical card
is addressed by its index in `db.machines` (the source mutates the object
in place). -/
def mergeMachineRecords (db : DB) (canonIdx : Nat) : DB :=
  match db.machines.get? canonIdx with
  | none => db
  | some canon0 =>
    let canonicalFingerprint := normalizeMachineFingerprint canon0.fingerprint canon0.id
    let canonicalAgentName := normalizeAgentName canon0.name canon0.id
    let duplicates := db.machines.filter (fun m =>
      m.id ≠ "" ∧ m.id ≠ canon0.id ∧
      normalizeMachineFingerprint m.fingerprint m.id = canonicalFingerprint ∧
      normalizeAgentName m.name m.id = canonicalAgentName)
    if duplicates.isEmpty then db
    else
      let aliasSet0 := setAdd (canon0.aliases.foldl setAdd []) canon0.id
      let folded := duplicates.foldl mergeDuplicateStep
        (canon0, aliasSet0, db.tasks, db.history)
      let canon := { folded.1 with aliases := dedupeAliases folded.2.1 }
      let machines := (db.machines.set canonIdx canon).filter (fun m =>
        ¬ duplicates.any (fun d => d.id = m.id))
      { machines := machines
        tasks := dedupeStoredTasks folded.2.2.1
        history := folded.2.2.2 }

/-! ## Presence, counts, dashboard comparator -/

/-- `isMachineOnline` from `src/server/index.js`. -/
def isMachineOnline (machine : Machine) (nowMs : Int) : Bool :=
  match machine.last_seen with
  | none => false
  | some lastSeenMs => nowMs - lastSeenMs ≤ AGENT_OFFLINE_TIMEOUT_MS

/-- The presence projection returned by `resolveMachinePresence`. -/
structure Presence where
  agent_status : String
  status_since : Int
  online_since : Option Int
  offline_since : Option Int
deriving Repr, DecidableEq

/-- `resolveMachinePresence` from `src/server/index.js`. -/
def resolveMachinePresence (machine : Machine) (nowMs : Int) : Presence :=
  let online :=
    match machine.last_seen with
    | none => false
    | some lastSeenMs => nowMs - lastSeenMs ≤ AGENT_OFFLINE_TIMEOUT_MS
  let normalizedOnlineSince := machine.online_since
  if online then
    let statusSinceMs :=
      match normalizedOnlineSince with
      | some os => os
      | none =>
        match machine.last_seen with
        | some ls => ls
        | none => nowMs
    { agent_status := "online"
      status_since := statusSinceMs
      online_since := some statusSinceMs
      offline_since := none }
  else
    let rawOfflineSinceMs :=
      match machine.last_seen with
      | none => nowMs
      | some ls => ls + AGENT_OFFLINE_TIMEOUT_MS
    let offlineSinceMs := min (max rawOfflineSinceMs 0) nowMs
    { agent_status := "offline"
      status_since := offlineSinceMs
      online_since := normalizedOnlineSince
      offline_since := some offlineSinceMs }

/-- Per-status task counts (`buildCounts`). -/
structure Counts where
  in_progress : Nat
  awaiting_verification : Nat
  verified : Nat
deriving Repr, DecidableEq

/-- `buildCounts` from `src/server/index.js`. -/
def buildCounts (tasks : List Task) : Counts :=
  tasks.foldl
    (fun acc task =>
      let status := normalizeTaskStatus task.status
      let acc := if status = "in_progress" then
        { acc with in_progress := acc.in_progress + 1 } else acc
      let acc := if status = "awaiting_verification" then
        { acc with awaiting_verification := acc.awaiting_verification + 1 } else acc
      if status = "verified" then
        { acc with verified := acc.verified + 1 } else acc)
    ⟨0, 0, 0⟩

/-- One row of the dashboard summary (the object built in
`GET /api/dashboard`).  `status_since` is always a concrete instant
(the presence projection always emits a valid ISO string). -/
structure DashboardRow where
  id : String
  name : String
  agent_name : String
  display_name : String
  display_title : String
  last_seen : Option Int
  agent_status : String
  status_since : Int
  online_since : Option Int
  offline_since : Option Int
  counts : Counts
  total_tasks : Nat
deriving Repr, DecidableEq

/-- `String.localeCompare` with the `zh-CN` collator, modelled by
code-point order (the claims only use it as a deterministic final
tie-break). -/
def localeCompare (a b : String) : Int :=
  if a < b then -1 else if a = b then 0 else 1

/-- `compareDashboardMachines` from `src/server/index.js`. -/
def compareDashboardMachines (a b : DashboardRow) : Int :=
  let aRank : Int := if a.agent_status = "online" then 0 else 1
  let bRank : Int := if b.agent_status = "online" then 0 else 1
  if aRank ≠ bRank then aRank - bRank
  else if a.status_since ≠ b.status_since then b.status_since - a.status_since
  else
    match a.last_seen, b.last_seen with
    | some aSeen, some bSeen =>
      if aSeen ≠ bSeen then bSeen - aSeen
      else localeCompare a.display_title b.display_title
    | _, _ => localeCompare a.display_title b.display_title

/-- Stable insertion of an element into a sorted list (used to model
`Array.prototype.sort` with a consistent comparator). -/
def insertSorted {α : Type} (le : α → α → Bool) (x : α) : List α → List α
  | [] => [x]
  | y :: ys => if le x y then x :: y :: ys else y :: insertSorted le x ys

/-- Sorting by a boolean `le`, modelling `Array.prototype.sort`. -/
def sortBy {α : Type} (le : α → α → Bool) : List α → List α
  | [] => []
  | x :: xs => insertSorted le x (sortBy le xs)

/-! ## `POST /api/report` -/

/-- Update the first task matching `(taskId, machineId)` (the source finds
the stored object and `Object.assign`s it in place). -/
def updateFirstTask (tasks : List Task) (taskId machineId : String)
    (updated : Task) : List Task :=
  match tasks with
  | [] => []
  | t :: rest =>
    if t.id = taskId ∧ t.machine_id = machineId then updated :: rest
    else t :: updateFirstTask rest taskId machineId updated

/-- The stored-task lookup predicate of the upsert loop
(`tt.id === t.id && tt.machine_id === canonicalMachineId`). -/
def taskMatches (taskId machineId : String) (tt : Task) : Bool :=
  tt.id = taskId ∧ tt.machine_id = machineId

/-- The task upsert step: the body of the `(group.tasks || []).forEach`
loop in `POST /api/report`.  `nowMs` plays both `now` (the receipt
timestamp) and the `Date.now()` in the history event id. -/
def upsertTask (canonicalMachineId groupSource : String) (nowMs : Int)
    (db : DB) (t : InTask) : DB :=
  if t.id = "" then db
  else
    let existing := db.tasks.find? (taskMatches t.id canonicalMachineId)
    let nextStatus := normalizeTaskStatus t.status
    let nextSource := normalizeTaskSource
      (if t.source ≠ "" then t.source
       else if groupSource ≠ "" then groupSource
       else (existing.map (·.source)).getD "")
    let previousStatus := existing.map (fun e => normalizeTaskStatus e.status)
    let createdAt := resolveCreatedAt existing t.created_at t.updated_at nowMs
    let updatedAt := resolveUpdatedAt existing t.updated_at createdAt nowMs
    let incomingPreviewImages := normalizePreviewImages t.preview_images
    let storedPreviewImages :=
      normalizePreviewImages ((existing.map (·.preview_images)).getD [])
    let previewImages :=
      if incomingPreviewImages ≠ [] then incomingPreviewImages
      else storedPreviewImages
    let updated : Task :=
      { id := t.id
        machine_id := canonicalMachineId
        title := if t.title ≠ "" then t.title else "Untitled Task"
        status := nextStatus
        source := nextSource
        created_at := some createdAt
        updated_at := some updatedAt
        preview_images := previewImages }
    match existing with
    | some _ =>
      let history :=
        if previousStatus ≠ some nextStatus then
          appendHistory db.history
            { id := canonicalMachineId ++ ":" ++ t.id ++ ":" ++ toString nowMs
              event := "status_changed"
              machine_id := canonicalMachineId
              task_id := t.id
              title := updated.title
              from_status := previousStatus
              to_status := nextStatus
              changed_at := nowMs }
        else db.history
      { db with
        tasks := updateFirstTask db.tasks t.id canonicalMachineId updated
        history := history }
    | none =>
      { db with
        tasks := db.tasks ++ [updated]
        history := appendHistory db.history
          { id := canonicalMachineId ++ ":" ++ t.id ++ ":" ++ toString nowMs
            event := "created"
            machine_id := canonicalMachineId
            task_id := t.id
            title := updated.title
            from_status := none
            to_status := nextStatus
            changed_at := nowMs } }

/-- The stored record produced by the upsert step for a task with no
stored predecessor (the `updated` object with `existing = undefined`). -/
def freshTaskRecord (canonicalMachineId groupSource : String) (nowMs : Int)
    (t : InTask) : Task :=
  { id := t.id
    machine_id := canonicalMachineId
    title := if t.title ≠ "" then t.title else "Untitled Task"
    status := normalizeTaskStatus t.status
    source := normalizeTaskSource
      (if t.source ≠ "" then t.source
       else if groupSource ≠ "" then groupSource
       else (((none : Option Task)).map (·.source)).getD "")
    created_at := some (resolveCreatedAt none t.created_at t.updated_at nowMs)
    updated_at := some (resolveUpdatedAt none t.updated_at
      (resolveCreatedAt none t.created_at t.updated_at nowMs) nowMs)
    preview_images :=
      if normalizePreviewImages t.preview_images ≠ [] then
        normalizePreviewImages t.preview_images
      else normalizePreviewImages ((((none : Option Task)).map
        (·.preview_images)).getD []) }

/-- The fresh card pushed by `POST /api/report` when no existing card
matches. -/
def newMachineRecord (db : DB)
    (sourceMachineId machineId machineFingerprint sourceMachineName : String)
    (nowMs : Int) : Machine :=
  let recordId := pickMachineRecordId db sourceMachineId machineFingerprint
    sourceMachineName nowMs
  { id := if recordId ≠ "" then recordId else sourceMachineId
    name := sourceMachineName
    last_seen := some nowMs
    online_since := some nowMs
    fingerprint := machineFingerprint
    aliases := dedupeAliases [sourceMachineId, machineId, recordId]
    display_name := "" }

/-- The in-place refresh of a found card (`machine.name = …;
machine.last_seen = now; …`). -/
def refreshedMachine (m : Machine)
    (sourceMachineId machineId machineFingerprint sourceMachineName : String)
    (nowMs : Int) : Machine :=
  let wasOnline := isMachineOnline m nowMs
  { m with
    name := sourceMachineName
    last_seen := some nowMs
    online_since :=
      if ¬ wasOnline ∨ m.online_since = none then some nowMs
      else m.online_since
    fingerprint := machineFingerprint
    aliases := dedupeAliases (m.aliases ++ [m.id, sourceMachineId, machineId]) }

/-- The card upsert of one source group (`findMachine` then create or
refresh), returning the updated state and the canonical card's index. -/
def upsertMachineCard (db : DB)
    (sourceMachineId machineId machineFingerprint sourceMachineName : String)
    (nowMs : Int) : DB × Nat :=
  match findMachineIdx db sourceMachineId machineFingerprint sourceMachineName with
  | none =>
    ({ db with machines := db.machines ++
        [newMachineRecord db sourceMachineId machineId machineFingerprint
          sourceMachineName nowMs] },
     db.machines.length)
  | some idx =>
    match db.machines.get? idx with
    | none => (db, idx)
    | some m =>
      let m' := refreshedMachine m sourceMachineId machineId machineFingerprint
        sourceMachineName nowMs
      ({ db with machines := db.machines.set idx m' }, idx)

/-- Processing one source group in `POST /api/report`: upsert the card,
run the merge pass, upsert the group's tasks.  Returns the updated state
and the canonical machine id. -/
def processGroup (machineId machineName machineFingerprint : String)
    (nowMs : Int) (acc : DB × String) (group : TaskGroup) : DB × String :=
  let db := acc.1
  let groupSource := normalizeTaskSource group.source
  let sourceToken := normalizeSourceToken groupSource
  let sourceMachineId :=
    if sourceToken = "" then machineId else machineId ++ "::" ++ sourceToken
  let sourceMachineName := composeMachineAgentName machineName groupSource
  let res := upsertMachineCard db sourceMachineId machineId machineFingerprint
    sourceMachineName nowMs
  let canonicalMachineId :=
    match res.1.machines.get? res.2 with
    | some m => m.id
    | none => sourceMachineId
  let db2 := mergeMachineRecords res.1 res.2
  let db3 := group.tasks.foldl (upsertTask canonicalMachineId groupSource nowMs) db2
  (db3, canonicalMachineId)

/-- The result of `POST /api/report`: either the 400 rejection or the
success payload. -/
inductive ReportResult where
  | badRequest
  | ok (machine : String) (tasksUpdated : Nat)
deriving Repr, DecidableEq

/-- `POST /api/report` from `src/server/index.js`: validation, source-group
loop, and the `saveDB` (which re-applies `ensureDBShape`).  On rejection
the stored state is returned untouched (nothing was loaded or saved). -/
def handleReport (stored : DB) (payload : Report) (nowMs : Int) :
    ReportResult × DB :=
  let machineId := payload.machine_id
  let machineName := normalizeAgentName payload.machine_name machineId
  let machineFingerprint :=
    normalizeMachineFingerprint payload.machine_fingerprint machineId
  let tasks := dedupeIncomingTasks payload.tasks
  if machineId = "" then (ReportResult.badRequest, stored)
  else
    let taskGroups0 := splitTasksBySource tasks
    let taskGroups := if taskGroups0.isEmpty then [⟨"", []⟩] else taskGroups0
    let db := ensureDBShape nowMs stored
    let folded := taskGroups.foldl
      (processGroup machineId machineName machineFingerprint nowMs)
      (db, machineId)
    (ReportResult.ok folded.2 tasks.length, ensureDBShape nowMs folded.1)

/-! ## Dashboard queries -/

/-- The summary row built for one card in `GET /api/dashboard`. -/
def dashboardRow (tasks : List Task) (nowMs : Int) (m : Machine) :
    DashboardRow :=
  let mTasks := tasks.filter (fun t => t.machine_id = m.id)
  let counts := buildCounts mTasks
  let presence := resolveMachinePresence m nowMs
  { id := m.id
    name := m.name
    agent_name := m.name
    display_name := normalizeDisplayName m.display_name
    display_title := composeMachineTitle m.display_name m.name
    last_seen := m.last_seen
    agent_status := presence.agent_status
    status_since := presence.status_since
    online_since := presence.online_since
    offline_since := presence.offline_since
    counts := counts
    total_tasks := mTasks.length }

/-- `GET /api/dashboard` from `src/server/index.js`: map every card to a
summary row and sort with `compareDashboardMachines`. -/
def getDashboard (stored : DB) (nowMs : Int) : List DashboardRow :=
  let db := ensureDBShape nowMs stored
  sortBy (fun a b => compareDashboardMachines a b ≤ 0)
    (db.machines.map (dashboardRow db.tasks nowMs))

/-- The response of `GET /api/dashboard/machine/:id` (`404` = `none`).
The task rows are the stored task records, verbatim. -/
structure MachineDetail where
  id : String
  name : String
  agent_name : String
  display_name : String
  display_title : String
  last_seen : Option Int
  agent_status : String
  status_since : Int
  online_since : Option Int
  offline_since : Option Int
  counts : Counts
  tasks : List Task
  recent_history : List HistoryEvent
deriving Repr, DecidableEq

/-- `GET /api/dashboard/machine/:id` from `src/server/index.js`. -/
def getMachineDetail (stored : DB) (machineId : String) (nowMs : Int) :
    Option MachineDetail :=
  let db := ensureDBShape nowMs stored
  match db.machines.find? (fun m => m.id = machineId) with
  | none => none
  | some machine =>
    let tasks := db.tasks.filter (fun t => t.machine_id = machineId)
    let counts := buildCounts tasks
    let presence := resolveMachinePresence machine nowMs
    let recentHistory :=
      ((db.history.filter (fun h => h.machine_id = machineId)).reverse).take 20
    some
      { id := machine.id
        name := machine.name
        agent_name := machine.name
        display_name := normalizeDisplayName machine.display_name
        display_title := composeMachineTitle machine.display_name machine.name
        last_seen := machine.last_seen
        agent_status := presence.agent_status
        status_since := presence.status_since
        online_since := presence.online_since
        offline_since := presence.offline_since
        counts := counts
        tasks := tasks
        recent_history := recentHistory }

/-- The effective item limit of `GET /api/dashboard/history`:
`Number.isFinite(rawLimit) ? Math.min(Math.max(rawLimit, 1), 500) : 50`.
`none` models a missing or non-numeric (`NaN`-parsing) `limit`
parameter. -/
def historyLimit (rawLimit : Option Int) : Int :=
  match rawLimit with
  | some r => min (max r 1) 500
  | none => 50

/-- The filtered event list of `GET /api/dashboard/history` (`""` models
an absent filter parameter). -/
def filteredHistory (db : DB) (machineId taskId : String) :
    List HistoryEvent :=
  let items := db.history
  let items := if machineId ≠ "" then
    items.filter (fun h => h.machine_id = machineId) else items
  if taskId ≠ "" then items.filter (fun h => h.task_id = taskId) else items

/-- `GET /api/dashboard/history` from `src/server/index.js`: returns
`{total, items}` with `items = filtered.slice(-limit).reverse()`. -/
def getHistory (stored : DB) (machineId taskId : String)
    (rawLimit : Option Int) (nowMs : Int) : Nat × List HistoryEvent :=
  let db := ensureDBShape nowMs stored
  let limit := historyLimit rawLimit
  let items := filteredHistory db machineId taskId
  (items.length, items.reverse.take limit.toNat)

/-! ## The normalized (fingerprint, agentName) identity pair of a card -/

/-- The normalized identity pair of a stored card, as recomputed by
`dedupeMachines`, `findMachine` and `mergeMachineRecords`. -/
def machinePairOf (m : Machine) : String × String :=
  (normalizeMachineFingerprint m.fingerprint m.id,
   normalizeAgentName m.name m.id)

/-- The well-formedness of one entry of the keyed map built by
`dedupeMachines`: the record's id has a non-blank trim, its stored
fingerprint and name are the non-blank trimmed normalized values, and the
entry key is their identity key.  (Holds whenever every incoming machine
id trims non-blank.) -/
def MachineEntryOk (e : String × Machine) : Prop :=
  jsTrim e.2.id ≠ "" ∧
  e.2.fingerprint ≠ "" ∧ jsTrim e.2.fingerprint = e.2.fingerprint ∧
  e.2.name ≠ "" ∧ jsTrim e.2.name = e.2.name ∧
  e.1 = machineIdentityKey e.2.fingerprint e.2.name

/-! ## Concrete request fixtures used in scenario theorems -/

/-- A report of one task with status `completed_pending_verification`. -/
def reportCPV : Report :=
  ⟨"m1", "", "", [⟨"t1", "Task 1", "completed_pending_verification", "", none, none, []⟩]⟩

/-- A report of one task with raw status `running`. -/
def reportRunning : Report :=
  ⟨"m1", "", "", [⟨"t1", "T", "running", "", none, none, []⟩]⟩

/-- First timestamp report: `created_at = 100`, `updated_at = 200`. -/
def reportFirstTs : Report :=
  ⟨"m1", "", "", [⟨"t1", "T", "in_progress", "", some 100, some 200, []⟩]⟩

/-- Second timestamp report: only `updated_at = 300`. -/
def reportSecondTs : Report :=
  ⟨"m1", "", "", [⟨"t1", "T", "in_progress", "", none, some 300, []⟩]⟩

/-- A report of task `t1` with status `in_progress`. -/
def reportIP : Report :=
  ⟨"m1", "", "", [⟨"t1", "T", "in_progress", "", none, none, []⟩]⟩

/-- A re-report of task `t1` with status `verified`. -/
def reportV : Report :=
  ⟨"m1", "", "", [⟨"t1", "T", "verified", "", none, none, []⟩]⟩

/-- First card of the identity-invariant counterexample: id `X`,
fingerprint `:`, agent name `:N`. -/
def cxReport1 : Report := ⟨"X", ":N", ":", []⟩

/-- Second card of the counterexample: id `Y`, fingerprint `X`,
agent name `::N`. -/
def cxReport2 : Report := ⟨"Y", "::N", "X", []⟩

/-- Third report of the counterexample: all-blank machine id `" "` with a
blank fingerprint, agent name `::N`. -/
def cxReport3 : Report := ⟨" ", "::N", " ", []⟩

/-- The stored state after the three counterexample reports. -/
def cxFinalDB : DB :=
  (handleReport
    (handleReport (handleReport emptyDB cxReport1 1000).2 cxReport2 2000).2
    cxReport3 3000).2

/-- A report whose machine name equals one of its two task sources. -/
def srcTitleReport : Report :=
  ⟨"m1", "Codex", "",
   [⟨"t1", "A", "in_progress", "Codex", none, none, []⟩,
    ⟨"t2", "B", "in_progress", "OpenCode", none, none, []⟩]⟩

/-- A report with two distinct sources whose slugs collide (`A B` and
`A-B` both slug to `a-b`). -/
def srcSlugReport : Report :=
  ⟨"m1", "N", "",
   [⟨"t1", "A", "in_progress", "A B", none, none, []⟩,
    ⟨"t2", "B", "in_progress", "A-B", none, none, []⟩]⟩

/-- Four reports building two online and two offline cards (timeout is
45000 ms; at clock 100000 the cards last seen at 0 and 10000 are
offline). -/
def presenceDB : DB :=
  (handleReport
    (handleReport
      (handleReport (handleReport emptyDB ⟨"d", "D", "fd", []⟩ 0).2
        ⟨"c", "C", "fc", []⟩ 10000).2
      ⟨"b", "B", "fb", []⟩ 99000).2
    ⟨"a", "A", "fa", []⟩ 100000).2

/-! ## The ordering described by the specification (C7) -/

/-- The presence rank used by the summary sort: online = 0, offline = 1. -/
def rankOf (r : DashboardRow) : Int :=
  if r.agent_status = "online" then 0 else 1

/-- The summary ordering as the specification words it (for C7's
refinement comparison): online before offline; within a bucket by
status-since descending; ties by last-seen descending; then by display
title.  (`getD 0` reads the parsed last-seen; the comparison theorem
assumes it present, as every stored card has one.) -/
def specDashboardLe (a b : DashboardRow) : Prop :=
  rankOf a < rankOf b ∨
  (rankOf a = rankOf b ∧
    (b.status_since < a.status_since ∨
      (b.status_since = a.status_since ∧
        (b.last_seen.getD 0 < a.last_seen.getD 0 ∨
          (b.last_seen.getD 0 = a.last_seen.getD 0 ∧
            a.display_title ≤ b.display_title)))))

/-! # Theorems -/

/-! ## String-trimming infrastructure -/

theorem dropWhile_self {p : Char → Bool} (l : List Char) :
    (l.dropWhile p).dropWhile p = l.dropWhile p := by
  induction l with
  | nil => rfl
  | cons c rest ih =>
    by_cases h : p c
    · simpa [List.dropWhile_cons, h] using ih
    · simp [List.dropWhile_cons, h]

theorem dropWhile_head_fails {p : Char → Bool} {l : List Char} {c : Char}
    (h : (l.dropWhile p).head? = some c) : p c = false := by
  have := List.head?_dropWhile_not p l
  rw [h] at this
  exact this

theorem dropWhile_eq_self_of_head {p : Char → Bool} {l : List Char}
    (h : ∀ c, l.head? = some c → p c = false) : l.dropWhile p = l := by
  cases l with
  | nil => rfl
  | cons c rest =>
    have hc : p c = false := h c rfl
    simp [List.dropWhile_cons, hc]

theorem getLast?_append_right {l₁ l₂ : List Char} (h : l₂ ≠ []) :
    (l₁ ++ l₂).getLast? = l₂.getLast? := by
  induction l₁ with
  | nil => rfl
  | cons c rest ih =>
    have hne : rest ++ l₂ ≠ [] := by
      intro hfalse
      rcases List.append_eq_nil.mp hfalse with ⟨_, h2⟩
      exact h h2
    rcases hrl : rest ++ l₂ with _ | ⟨d, ds⟩
    · exact absurd hrl hne
    · rw [List.cons_append, hrl, List.getLast?_cons_cons, ← hrl, ih]

theorem getLast?_dropWhile {p : Char → Bool} {l : List Char}
    (h : l.dropWhile p ≠ []) : (l.dropWhile p).getLast? = l.getLast? := by
  conv_rhs => rw [← List.takeWhile_append_dropWhile (p := p) (l := l)]
  exact (getLast?_append_right h).symm

theorem trimChars_head_fails {l : List Char} {c : Char}
    (h : (trimChars l).head? = some c) : isWs c = false := by
  unfold trimChars at h
  rw [List.head?_reverse] at h
  have hB : (l.dropWhile isWs).reverse.dropWhile isWs ≠ [] := by
    intro hnil
    rw [hnil] at h
    simp at h
  rw [getLast?_dropWhile hB, List.getLast?_reverse] at h
  exact dropWhile_head_fails h

theorem trimChars_last_fails {l : List Char} {c : Char}
    (h : (trimChars l).getLast? = some c) : isWs c = false := by
  unfold trimChars at h
  rw [List.getLast?_reverse] at h
  exact dropWhile_head_fails h

theorem trimChars_eq_self {l : List Char}
    (h1 : ∀ c, l.head? = some c → isWs c = false)
    (h2 : ∀ c, l.getLast? = some c → isWs c = false) : trimChars l = l := by
  unfold trimChars
  rw [dropWhile_eq_self_of_head h1]
  rw [dropWhile_eq_self_of_head (fun c hc => by
    rw [List.head?_reverse] at hc; exact h2 c hc)]
  exact List.reverse_reverse l

theorem trimChars_idem (l : List Char) :
    trimChars (trimChars l) = trimChars l :=
  trimChars_eq_self (fun _ hc => trimChars_head_fails hc)
    (fun _ hc => trimChars_last_fails hc)

theorem jsTrim_idem (s : String) : jsTrim (jsTrim s) = jsTrim s := by
  unfold jsTrim
  rw [show (String.mk (trimChars s.data)).data = trimChars s.data from rfl,
    trimChars_idem]

theorem string_mk_eq_nil_iff (l : List Char) : String.mk l = "" ↔ l = [] := by
  constructor
  · intro h
    have := congrArg String.data h
    simpa using this
  · intro h; rw [h]

theorem trimChars_eq_nil_iff (l : List Char) :
    trimChars l = [] ↔ ∀ c ∈ l, isWs c := by
  unfold trimChars
  constructor
  · intro h c hc
    have hB : (l.dropWhile isWs).reverse.dropWhile isWs = [] := by
      have := congrArg List.reverse h
      simpa using this
    have hA : ∀ c ∈ (l.dropWhile isWs).reverse, isWs c :=
      List.dropWhile_eq_nil_iff.mp hB
    have hA' : ∀ c ∈ l.dropWhile isWs, isWs c := by
      intro c hc
      exact hA c (List.mem_reverse.mpr hc)
    rw [← List.takeWhile_append_dropWhile (p := isWs) (l := l)] at hc
    rcases List.mem_append.mp hc with hc | hc
    · exact List.mem_takeWhile_imp hc
    · exact hA' c hc
  · intro h
    have hA : l.dropWhile isWs = [] := List.dropWhile_eq_nil_iff.mpr h
    rw [hA]
    rfl

theorem jsTrim_eq_nil_iff (s : String) :
    jsTrim s = "" ↔ ∀ c ∈ s.data, isWs c := by
  unfold jsTrim
  rw [string_mk_eq_nil_iff]
  exact trimChars_eq_nil_iff s.data

theorem jsTrim_append_left_ne {a : String} (b : String)
    (h : jsTrim a ≠ "") : jsTrim (a ++ b) ≠ "" := by
  intro hcontra
  apply h
  rw [jsTrim_eq_nil_iff] at hcontra ⊢
  intro c hc
  exact hcontra c (by rw [String.data_append]; exact List.mem_append_left _ hc)

theorem jsTrim_nil : jsTrim "" = "" := rfl

/-! ## Normalizer stability lemmas -/

theorem normalizeAgentName_ne_nil (v f : String) :
    normalizeAgentName v f ≠ "" := by
  unfold normalizeAgentName
  by_cases h1 : jsTrim v = ""
  · by_cases h2 : jsTrim f = ""
    · simp [h1, h2]
    · simp [h1, h2]
  · simp [h1]

theorem normalizeAgentName_trimmed (v f : String) :
    jsTrim (normalizeAgentName v f) = normalizeAgentName v f := by
  unfold normalizeAgentName
  by_cases h1 : jsTrim v = ""
  · by_cases h2 : jsTrim f = ""
    · simp [h1, h2]
      rfl
    · simp [h1, h2, jsTrim_idem]
  · simp [h1, jsTrim_idem]

theorem normalizeAgentName_stable {v : String} (h1 : jsTrim v = v)
    (h2 : v ≠ "") (g : String) : normalizeAgentName v g = v := by
  unfold normalizeAgentName
  rw [h1]
  simp [h2]

theorem normalizeMachineFingerprint_trimmed (v f : String) :
    jsTrim (normalizeMachineFingerprint v f) =
      normalizeMachineFingerprint v f := by
  unfold normalizeMachineFingerprint
  by_cases h : jsTrim v = ""
  · simp [h, jsTrim_idem]
  · simp [h, jsTrim_idem]

theorem normalizeMachineFingerprint_ne_of_id {v f : String}
    (h : jsTrim f ≠ "") : normalizeMachineFingerprint v f ≠ "" := by
  unfold normalizeMachineFingerprint
  by_cases hv : jsTrim v = ""
  · simp [hv, h]
  · simp [hv]

theorem normalizeMachineFingerprint_stable {v : String} (h1 : jsTrim v = v)
    (h2 : v ≠ "") (g : String) : normalizeMachineFingerprint v g = v := by
  unfold normalizeMachineFingerprint
  rw [h1]
  simp [h2]

/-! ## Claim C2 — status normalization -/

/-- C2 (amended): status normalization maps `running`/`active` to
`in_progress` and `done`/`completed` to `verified`;
`completed_pending_verification` and `awaiting_verification` map to
`awaiting_verification`; a blank value defaults to `in_progress`; any
other (unknown) value passes through unchanged (trimmed) — in particular
`archived` is *not* mapped to `verified`.  End to end, reporting a task
with status `completed_pending_verification` and fetching the machine
detail shows the task with status `awaiting_verification`. -/
theorem claim2_status_normalization_amended :
    (normalizeTaskStatus "running" = "in_progress" ∧
     normalizeTaskStatus "active" = "in_progress" ∧
     normalizeTaskStatus "done" = "verified" ∧
     normalizeTaskStatus "completed" = "verified" ∧
     normalizeTaskStatus "completed_pending_verification" = "awaiting_verification" ∧
     normalizeTaskStatus "awaiting_verification" = "awaiting_verification") ∧
    (∀ s : String, jsTrim s = "" → normalizeTaskStatus s = "in_progress") ∧
    (∀ s : String,
      jsTrim s ∉ (["running", "active", "done", "completed",
        "completed_pending_verification", "awaiting_verification"] : List String) →
      jsTrim s ≠ "" → normalizeTaskStatus s = jsTrim s) ∧
    (getMachineDetail (handleReport emptyDB reportCPV 1000).2 "m1" 2000).map
        (fun d => d.tasks.map (fun t => t.status)) =
      some ["awaiting_verification"] := by
  refine ⟨by decide, ?_, ?_, by decide⟩
  · intro s h
    unfold normalizeTaskStatus
    rw [h]
    decide
  · intro s hmem hne
    simp only [List.mem_cons, List.not_mem_nil, or_false, not_or] at hmem
    obtain ⟨h1, h2, h3, h4, h5, h6⟩ := hmem
    unfold normalizeTaskStatus
    simp [h1, h2, h3, h4, h5, h6, hne]

/-- C2 witness: an unknown status (`" qed "`) passes through trimmed. -/
theorem claim2_witness : normalizeTaskStatus " qed " = jsTrim " qed " :=
  claim2_status_normalization_amended.2.2.1 " qed " (by decide) (by decide)

/-- C2 counterexample: `archived` is not an alias — it is passed through,
not mapped to `verified` (and not defaulted to `in_progress`). -/
theorem claim2_counterexample :
    normalizeTaskStatus "archived" = "archived" ∧
    normalizeTaskStatus "archived" ≠ "verified" ∧
    normalizeTaskStatus "archived" ≠ "in_progress" := by
  decide

/-! ## Claim C4 — presence projection -/

/-- C4 (amended): with a parseable `lastSeen`, the card is online iff
`now - lastSeen ≤ timeout`; when offline, `offlineSince =
min(max(lastSeen + timeout, 0), now)` — i.e. `min(lastSeen + timeout,
now)` additionally clamped at the epoch, hence exactly the claimed value
whenever `lastSeen + timeout ≥ 0` — a value that always lies strictly
after `lastSeen` and never after `now`; the stored `onlineSince` is
passed through unchanged and is `null` exactly when never recorded. -/
theorem claim4_presence_amended (m : Machine) (nowMs ls : Int)
    (h : m.last_seen = some ls) :
    ((resolveMachinePresence m nowMs).agent_status = "online" ↔
      nowMs - ls ≤ AGENT_OFFLINE_TIMEOUT_MS) ∧
    (AGENT_OFFLINE_TIMEOUT_MS < nowMs - ls →
      (resolveMachinePresence m nowMs).agent_status = "offline" ∧
      (resolveMachinePresence m nowMs).offline_since =
        some (min (max (ls + AGENT_OFFLINE_TIMEOUT_MS) 0) nowMs) ∧
      (0 ≤ ls + AGENT_OFFLINE_TIMEOUT_MS →
        (resolveMachinePresence m nowMs).offline_since =
          some (min (ls + AGENT_OFFLINE_TIMEOUT_MS) nowMs)) ∧
      (∀ v, (resolveMachinePresence m nowMs).offline_since = some v →
        ls < v ∧ v ≤ nowMs) ∧
      (resolveMachinePresence m nowMs).online_since = m.online_since ∧
      ((resolveMachinePresence m nowMs).online_since = none ↔
        m.online_since = none)) := by
  have htpos : (0 : Int) < AGENT_OFFLINE_TIMEOUT_MS := by decide
  by_cases hon : nowMs - ls ≤ AGENT_OFFLINE_TIMEOUT_MS
  · have hval : (resolveMachinePresence m nowMs).agent_status = "online" := by
      unfold resolveMachinePresence
      rw [h]
      simp [hon]
    refine ⟨by simp [hval, hon], fun hoff => absurd hon (by omega)⟩
  · have hval : resolveMachinePresence m nowMs =
        { agent_status := "offline"
          status_since := min (max (ls + AGENT_OFFLINE_TIMEOUT_MS) 0) nowMs
          online_since := m.online_since
          offline_since :=
            some (min (max (ls + AGENT_OFFLINE_TIMEOUT_MS) 0) nowMs) } := by
      unfold resolveMachinePresence
      rw [h]
      simp [hon]
    rw [hval]
    refine ⟨by simp [hon], ?_⟩
    intro hoff
    refine ⟨rfl, rfl, ?_, ?_, rfl, Iff.rfl⟩
    · intro hge
      have hmax : max (ls + AGENT_OFFLINE_TIMEOUT_MS) 0 =
          ls + AGENT_OFFLINE_TIMEOUT_MS := by omega
      rw [hmax]
    · intro v hv
      have hv' : v = min (max (ls + AGENT_OFFLINE_TIMEOUT_MS) 0) nowMs := by
        exact (Option.some_inj.mp hv).symm
      constructor <;> omega

/-- C4 witness: a card last seen at 0 evaluated at clock 100000 is
offline since `min(max(45000, 0), 100000) = 45000`. -/
theorem claim4_witness :
    (resolveMachinePresence ⟨"a", "A", "f", [], some 0, none, ""⟩ 100000).offline_since =
      some (min (max ((0 : Int) + AGENT_OFFLINE_TIMEOUT_MS) 0) 100000) :=
  ((claim4_presence_amended ⟨"a", "A", "f", [], some 0, none, ""⟩ 100000 0 rfl).2
    (by decide)).2.1

/-- C4 counterexample: for a pre-epoch `lastSeen` (-46000 ms) at clock 0
the card is offline and the code reports `offlineSince = 0`, while the
claimed `min(lastSeen + timeout, now)` would be `-1000`. -/
theorem claim4_counterexample :
    AGENT_OFFLINE_TIMEOUT_MS < 0 - (-46000 : Int) ∧
    (resolveMachinePresence ⟨"p", "P", "fp", [], some (-46000), none, ""⟩ 0).offline_since =
      some 0 ∧
    min ((-46000 : Int) + AGENT_OFFLINE_TIMEOUT_MS) 0 = -1000 ∧
    (0 : Int) ≠ -1000 := by
  decide

/-! ## Claim C10 — history query limit -/

/-- C10: the effective `limit` of `GET /dashboard/history` is clamped to
`[1, 500]`; a missing or non-numeric parameter (`none`) defaults to 50;
`total` counts all matching events before the limit applies; `items` is
the reversed (newest-first) suffix of length `min(limit, total)`. -/
theorem claim10_history_limit :
    (∀ r : Int, 1 ≤ historyLimit (some r) ∧ historyLimit (some r) ≤ 500) ∧
    historyLimit none = 50 ∧
    (∀ (stored : DB) (machineId taskId : String) (rawLimit : Option Int)
        (nowMs : Int),
      (getHistory stored machineId taskId rawLimit nowMs).1 =
        (filteredHistory (ensureDBShape nowMs stored) machineId taskId).length ∧
      (getHistory stored machineId taskId rawLimit nowMs).2 =
        ((filteredHistory (ensureDBShape nowMs stored) machineId taskId).reverse).take
          (historyLimit rawLimit).toNat ∧
      (getHistory stored machineId taskId rawLimit nowMs).2.length =
        min (historyLimit rawLimit).toNat
          (getHistory stored machineId taskId rawLimit nowMs).1) := by
  refine ⟨?_, rfl, ?_⟩
  · intro r
    have hval : historyLimit (some r) = min (max r 1) 500 := rfl
    rw [hval]
    constructor <;> omega
  · intro stored machineId taskId rawLimit nowMs
    refine ⟨rfl, rfl, ?_⟩
    show (((filteredHistory (ensureDBShape nowMs stored) machineId taskId).reverse).take
      (historyLimit rawLimit).toNat).length = _
    rw [List.length_take, List.length_reverse]
    rfl

/-! ## Claim C3 — createdAt/updatedAt resolution -/

/-- C3: a stored `createdAt` is kept unless it equals the stored
`updatedAt` and a distinct inbound `createdAt` arrives (then the inbound
value is adopted); with no stored value the result is inbound `createdAt`,
else inbound `updatedAt`, else the receipt time; `updatedAt` is the
inbound value, else the stored one, else `createdAt`.  End to end:
reporting `created_at = 100, updated_at = 200` and then only
`updated_at = 300` leaves `created_at = 100` and sets
`updated_at = 300`. -/
theorem claim3_created_at_resolution :
    (∀ (e : Task) (ic iu : Option Int) (now c u i : Int),
        e.created_at = some c → e.updated_at = some u → ic = some i →
        c = u → i ≠ c → resolveCreatedAt (some e) ic iu now = i) ∧
    (∀ (e : Task) (ic iu : Option Int) (now c : Int),
        e.created_at = some c →
        (ic = none ∨ ic = some c ∨ e.updated_at ≠ some c) →
        resolveCreatedAt (some e) ic iu now = c) ∧
    (∀ (ic iu : Option Int) (now : Int),
        resolveCreatedAt none ic iu now = (ic <|> iu).getD now) ∧
    (∀ (e : Option Task) (iu : Option Int) (c now u : Int), iu = some u →
        resolveUpdatedAt e iu c now = u) ∧
    (∀ (e : Task) (c now u : Int), e.updated_at = some u →
        resolveUpdatedAt (some e) none c now = u) ∧
    (∀ (e : Task) (c now : Int), e.updated_at = none →
        resolveUpdatedAt (some e) none c now = c) ∧
    ((handleReport (handleReport emptyDB reportFirstTs 1000).2
        reportSecondTs 2000).2.tasks.map
      (fun t => (t.id, t.created_at, t.updated_at)) =
        [("t1", some 100, some 300)]) := by
  refine ⟨?_, ?_, ?_, ?_, ?_, ?_, by decide⟩
  · intro e ic iu now c u i hc hu hic hcu hne
    subst hcu
    unfold resolveCreatedAt
    simp only [hc, hu, hic, Option.bind_eq_bind, Option.some_bind]
    simp [hne]
  · intro e ic iu now c hc hcase
    unfold resolveCreatedAt
    simp only [hc, Option.bind_eq_bind, Option.some_bind]
    rcases hic : ic with _ | i
    · simp
    · rcases heu : e.updated_at with _ | u
      · simp
      · have hcond : ¬ (c = u ∧ ¬ i = c) := by
          rintro ⟨rfl, hne⟩
          rcases hcase with h | h | h
          · rw [hic] at h; exact Option.noConfusion h
          · rw [hic] at h; exact hne (Option.some_inj.mp h)
          · exact h heu
        simp [hcond]
  · intro ic iu now
    unfold resolveCreatedAt
    simp
  · intro e iu c now u hu
    unfold resolveUpdatedAt
    simp [hu]
  · intro e c now u hu
    unfold resolveUpdatedAt
    simp [hu]
  · intro e c now hu
    unfold resolveUpdatedAt
    simp [hu]

/-- C3 witness: with no stored task, inbound `created_at = 5` wins. -/
theorem claim3_witness :
    resolveCreatedAt none (some 5) none 9 = ((some 5 : Option Int) <|> none).getD 9 :=
  claim3_created_at_resolution.2.2.1 (some 5) none 9

/-! ## Claim C9 — machine detail response -/

/-- C9 (evaluated at the failing input): reporting a task with raw status
`running` stores only the normalized status `in_progress`, and the detail
response returns exactly that stored record — there is no `raw_status`
field anywhere in the response (the record shown is the complete task
row).  An unknown id yields `404` (`none`). -/
theorem claim9_raw_status_missing :
    ((handleReport emptyDB reportRunning 1000).2.tasks.map
        (fun t => t.status) = ["in_progress"]) ∧
    ((getMachineDetail (handleReport emptyDB reportRunning 1000).2 "m1" 2000).map
        (fun d => d.tasks) =
      some [{ id := "t1", machine_id := "m1", title := "T",
              status := "in_progress", source := "", created_at := some 1000,
              updated_at := some 1000, preview_images := [] }]) ∧
    getMachineDetail (handleReport emptyDB reportRunning 1000).2 "zzz" 2000 =
      none := by
  decide

/-! ## Claim C8 — report validation and task skipping -/

theorem dedupeIncoming_foldl_filter (l : List InTask)
    (acc : List (String × InTask)) :
    (l.filter (fun t => t.id ≠ "")).foldl dedupeIncomingTasksStep acc =
      l.foldl dedupeIncomingTasksStep acc := by
  induction l generalizing acc with
  | nil => rfl
  | cons t rest ih =>
    rw [List.filter_cons]
    by_cases h : t.id = ""
    · rw [if_neg (by simp [h]), List.foldl_cons]
      have hstep : dedupeIncomingTasksStep acc t = acc := by
        simp [dedupeIncomingTasksStep, h]
      rw [hstep, ih]
    · rw [if_pos (by simp [h]), List.foldl_cons, List.foldl_cons, ih]

theorem dedupeIncomingTasks_filter (l : List InTask) :
    dedupeIncomingTasks (l.filter (fun t => t.id ≠ "")) =
      dedupeIncomingTasks l := by
  unfold dedupeIncomingTasks
  rw [dedupeIncoming_foldl_filter]

/-- C8: a report without a machine id is rejected with a 400 before any
state is loaded or mutated (the stored machines, tasks and history are
returned untouched); dropping the id-less task entries from a report does
not change its processing at all — they create no task and no history
event, while the remaining tasks are still applied. -/
theorem claim8_report_validation :
    (∀ (stored : DB) (payload : Report) (nowMs : Int), payload.machine_id = "" →
      handleReport stored payload nowMs = (ReportResult.badRequest, stored)) ∧
    (∀ (stored : DB) (payload : Report) (nowMs : Int),
      handleReport stored
          { payload with tasks := payload.tasks.filter (fun t => t.id ≠ "") }
          nowMs =
        handleReport stored payload nowMs) := by
  constructor
  · intro stored payload nowMs h
    unfold handleReport
    simp [h]
  · intro stored payload nowMs
    unfold handleReport
    simp only [dedupeIncomingTasks_filter]

/-- C8 witness: a concrete machine-id-less report is rejected unchanged,
and a concrete report processes identically with its blank-id task
dropped. -/
theorem claim8_witness :
    handleReport emptyDB ⟨"", "n", "f", []⟩ 7 =
      (ReportResult.badRequest, emptyDB) ∧
    handleReport emptyDB
        { machine_id := "m1", machine_name := "", machine_fingerprint := ""
          tasks := ([⟨"", "bad", "running", "", none, none, []⟩,
            ⟨"t1", "T", "running", "", none, none, []⟩] : List InTask).filter
              (fun t => t.id ≠ "") } 7 =
      handleReport emptyDB
        ⟨"m1", "", "", [⟨"", "bad", "running", "", none, none, []⟩,
          ⟨"t1", "T", "running", "", none, none, []⟩]⟩ 7 :=
  ⟨claim8_report_validation.1 emptyDB ⟨"", "n", "f", []⟩ 7 rfl,
   claim8_report_validation.2 emptyDB
     ⟨"m1", "", "", [⟨"", "bad", "running", "", none, none, []⟩,
       ⟨"t1", "T", "running", "", none, none, []⟩]⟩ 7⟩

/-! ## Claim C6 — history transition recording -/

/-- C6: reporting `t1` as `in_progress` and then as `verified` yields
exactly one `status_changed` event, with `from_status = in_progress` and
`to_status = verified` (and exactly one `created` event); in general the
upsert step appends nothing when the stored normalized status equals the
inbound one, and inserting a brand-new task appends exactly one `created`
event with `from_status = null`. -/
theorem claim6_history_transitions :
    ((handleReport (handleReport emptyDB reportIP 1000).2 reportV 2000).2.history.filter
        (fun h => h.event = "status_changed") =
      [{ id := "m1:t1:2000", event := "status_changed", machine_id := "m1",
         task_id := "t1", title := "T", from_status := some "in_progress",
         to_status := "verified", changed_at := 2000 }]) ∧
    ((handleReport (handleReport emptyDB reportIP 1000).2 reportV 2000).2.history.filter
        (fun h => h.event = "created")).length = 1 ∧
    (∀ (db : DB) (cid gs : String) (nowMs : Int) (t : InTask) (e : Task),
      db.tasks.find? (taskMatches t.id cid) = some e →
      normalizeTaskStatus e.status = normalizeTaskStatus t.status →
      (upsertTask cid gs nowMs db t).history = db.history) ∧
    (∀ (db : DB) (cid gs : String) (nowMs : Int) (t : InTask),
      t.id ≠ "" →
      db.tasks.find? (taskMatches t.id cid) = none →
      (upsertTask cid gs nowMs db t).history =
        appendHistory db.history
          { id := cid ++ ":" ++ t.id ++ ":" ++ toString nowMs
            event := "created", machine_id := cid, task_id := t.id
            title := if t.title ≠ "" then t.title else "Untitled Task"
            from_status := none, to_status := normalizeTaskStatus t.status
            changed_at := nowMs }) := by
  refine ⟨by decide, by decide, ?_, ?_⟩
  · intro db cid gs nowMs t e hfind hstatus
    unfold upsertTask
    by_cases hid : t.id = ""
    · simp [hid]
    · simp [hid, hfind, hstatus]
  · intro db cid gs nowMs t hid hfind
    unfold upsertTask
    simp [hid, hfind]

/-- C6 witness: upserting a fresh task into the empty store appends one
`created` event with `from_status = null`. -/
theorem claim6_witness :
    (upsertTask "m" "" 5 emptyDB ⟨"t", "", "x", "", none, none, []⟩).history =
      appendHistory emptyDB.history
        { id := "m" ++ ":" ++ "t" ++ ":" ++ toString (5 : Int)
          event := "created", machine_id := "m", task_id := "t"
          title := if ("" : String) ≠ "" then "" else "Untitled Task"
          from_status := none, to_status := normalizeTaskStatus "x"
          changed_at := 5 } :=
  claim6_history_transitions.2.2.2 emptyDB "m" "" 5
    ⟨"t", "", "x", "", none, none, []⟩ (by decide) (by decide)

/-! ## Association-list and option helpers -/

theorem mem_listSet {α : Type} {l : List (String × α)} {k : String} {v : α}
    {e : String × α} (h : e ∈ listSet l k v) : e ∈ l ∨ e = (k, v) := by
  induction l with
  | nil => simpa [listSet] using h
  | cons p rest ih =>
    unfold listSet at h
    by_cases hk : p.1 = k
    · rw [if_pos hk] at h
      rcases List.mem_cons.mp h with h | h
      · right; rw [h, hk]
      · left; exact List.mem_cons_of_mem _ h
    · rw [if_neg hk] at h
      rcases List.mem_cons.mp h with h | h
      · left; rw [h]; exact List.mem_cons_self _ _
      · rcases ih h with h | h
        · left; exact List.mem_cons_of_mem _ h
        · right; exact h

theorem listGet_mem {α : Type} {l : List (String × α)} {k : String} {v : α}
    (h : listGet l k = some v) : (k, v) ∈ l := by
  induction l with
  | nil => simp [listGet] at h
  | cons p rest ih =>
    unfold listGet at h
    by_cases hk : p.1 = k
    · rw [if_pos hk] at h
      have : p = (k, v) := by
        rcases p with ⟨pk, pv⟩
        simp at hk
        simp at h
        rw [hk, h]
      rw [← this]
      exact List.mem_cons_self _ _
    · rw [if_neg hk] at h
      exact List.mem_cons_of_mem _ (ih h)

theorem orElse_some_ne_none {α : Type} (a : Option α) (x : α) :
    (a <|> some x) ≠ none := by
  cases a <;> simp

theorem orElse_ne_none_right {α : Type} {a b : Option α} (h : b ≠ none) :
    (a <|> b) ≠ none := by
  cases a <;> simp [h]

/-! ## Every deduplicated card carries a parseable last-seen -/

theorem dedupe_entries_last_seen (now : Int) (ms : List Machine) :
    ∀ (acc : List (String × Machine)),
      (∀ e ∈ acc, (e : String × Machine).2.last_seen ≠ none) →
      ∀ e ∈ ms.foldl (dedupeMachinesStep now) acc, e.2.last_seen ≠ none := by
  induction ms with
  | nil => intro acc hacc e he; exact hacc e he
  | cons m rest ih =>
    intro acc hacc e he
    rw [List.foldl_cons] at he
    refine ih _ ?_ e he
    intro e' he'
    unfold dedupeMachinesStep at he'
    by_cases hid : m.id = ""
    · rw [if_pos hid] at he'
      exact hacc e' he'
    · rw [if_neg hid] at he'
      dsimp only at he'
      split at he'
      · rcases mem_listSet he' with h | h
        · exact hacc e' h
        · rw [h]
          exact orElse_some_ne_none _ _
      · rename_i existing hget
        have hex : existing.last_seen ≠ none :=
          hacc _ (listGet_mem hget)
        split at he'
        · rcases mem_listSet he' with h | h
          · exact hacc e' h
          · rw [h]
            exact orElse_ne_none_right hex
        · rcases mem_listSet he' with h | h
          · exact hacc e' h
          · rw [h]
            exact hex

theorem dedupeMachines_last_seen {now : Int} {ms : List Machine} :
    ∀ m ∈ dedupeMachines now ms, m.last_seen ≠ none := by
  intro m hm
  unfold dedupeMachines at hm
  rcases List.mem_map.mp hm with ⟨e, he, rfl⟩
  exact dedupe_entries_last_seen now ms [] (by simp) e he

/-! ## The comparator agrees with the specified lexicographic order -/

theorem localeCompare_nonpos (s t : String) :
    localeCompare s t ≤ 0 ↔ s ≤ t := by
  unfold localeCompare
  split_ifs with h1 h2
  · simp only [iff_true_intro (le_of_lt h1), iff_true]
    omega
  · subst h2
    simp
  · have hts : t < s := by
      rcases lt_trichotomy s t with h | h | h
      · exact absurd h h1
      · exact absurd h h2
      · exact h
    constructor
    · intro h; omega
    · intro h; exact absurd h (not_le.mpr hts)

theorem compare_le_iff_spec (a b : DashboardRow)
    (ha : a.last_seen ≠ none) (hb : b.last_seen ≠ none) :
    compareDashboardMachines a b ≤ 0 ↔ specDashboardLe a b := by
  rcases hx : a.last_seen with _ | x
  · exact absurd hx ha
  rcases hy : b.last_seen with _ | y
  · exact absurd hy hb
  unfold compareDashboardMachines specDashboardLe rankOf
  rw [hx, hy]
  simp only [Option.getD_some]
  by_cases h1 : (if a.agent_status = "online" then (0 : Int) else 1) =
      (if b.agent_status = "online" then (0 : Int) else 1)
  · rw [if_neg (by omega : ¬ (if a.agent_status = "online" then (0 : Int) else 1) ≠
      (if b.agent_status = "online" then (0 : Int) else 1))]
    by_cases h2 : a.status_since = b.status_since
    · rw [if_neg (by omega : ¬ a.status_since ≠ b.status_since)]
      by_cases h3 : x = y
      · rw [if_neg (by omega : ¬ x ≠ y)]
        rw [localeCompare_nonpos]
        constructor
        · intro h
          right
          exact ⟨h1, Or.inr ⟨h2.symm, Or.inr ⟨by omega, h⟩⟩⟩
        · intro h
          rcases h with h | ⟨_, h⟩
          · omega
          · rcases h with h | ⟨_, h⟩
            · omega
            · rcases h with h | ⟨_, h⟩
              · omega
              · exact h
      · rw [if_pos h3]
        constructor
        · intro h
          right
          exact ⟨h1, Or.inr ⟨h2.symm, Or.inl (by omega)⟩⟩
        · intro h
          rcases h with h | ⟨_, h⟩
          · omega
          · rcases h with h | ⟨_, h⟩
            · omega
            · rcases h with h | ⟨h, _⟩
              · omega
              · omega
    · rw [if_pos h2]
      constructor
      · intro h
        right
        exact ⟨h1, Or.inl (by omega)⟩
      · intro h
        rcases h with h | ⟨_, h⟩
        · omega
        · rcases h with h | ⟨h, _⟩
          · omega
          · omega
  · rw [if_pos h1]
    constructor
    · intro h
      left
      omega
    · intro h
      rcases h with h | ⟨h, _⟩
      · omega
      · omega

theorem specDashboardLe_total (a b : DashboardRow) :
    specDashboardLe a b ∨ specDashboardLe b a := by
  unfold specDashboardLe
  rcases lt_trichotomy (rankOf a) (rankOf b) with h1 | h1 | h1
  · left; left; exact h1
  · rcases lt_trichotomy b.status_since a.status_since with h2 | h2 | h2
    · left; right; exact ⟨h1, Or.inl h2⟩
    · rcases lt_trichotomy (b.last_seen.getD 0) (a.last_seen.getD 0) with h3 | h3 | h3
      · left; right; exact ⟨h1, Or.inr ⟨h2, Or.inl h3⟩⟩
      · rcases le_total a.display_title b.display_title with h4 | h4
        · left; right; exact ⟨h1, Or.inr ⟨h2, Or.inr ⟨h3, h4⟩⟩⟩
        · right; right; exact ⟨h1.symm, Or.inr ⟨by omega, Or.inr ⟨by omega, h4⟩⟩⟩
      · right; right; exact ⟨h1.symm, Or.inr ⟨by omega, Or.inl h3⟩⟩
    · right; right; exact ⟨h1.symm, Or.inl h2⟩
  · right; left; exact h1

theorem specDashboardLe_trans {a b c : DashboardRow}
    (h1 : specDashboardLe a b) (h2 : specDashboardLe b c) :
    specDashboardLe a c := by
  unfold specDashboardLe at h1 h2 ⊢
  rcases h1 with h1 | ⟨h1r, h1s⟩
  · rcases h2 with h2 | ⟨h2r, _⟩
    · left; omega
    · left; omega
  · rcases h2 with h2 | ⟨h2r, h2s⟩
    · left; omega
    · right
      refine ⟨by omega, ?_⟩
      rcases h1s with h1s | ⟨h1e, h1t⟩
      · left
        rcases h2s with h2s | ⟨h2e, _⟩
        · omega
        · omega
      · rcases h2s with h2s | ⟨h2e, h2t⟩
        · left; omega
        · right
          refine ⟨by omega, ?_⟩
          rcases h1t with h1t | ⟨h1u, h1v⟩
          · rcases h2t with h2t | ⟨h2u, _⟩
            · left; omega
            · left; omega
          · rcases h2t with h2t | ⟨h2u, h2v⟩
            · left; omega
            · right
              exact ⟨by omega, le_trans h1v h2v⟩

/-! ## Stable sort correctness -/

theorem mem_insertSorted {α : Type} (le : α → α → Bool) (x y : α)
    (l : List α) : y ∈ insertSorted le x l ↔ y = x ∨ y ∈ l := by
  induction l with
  | nil => simp [insertSorted]
  | cons z zs ih =>
    unfold insertSorted
    by_cases h : le x z = true
    · rw [if_pos h]
      simp only [List.mem_cons]
    · rw [if_neg h]
      simp only [List.mem_cons, ih]
      tauto

theorem pairwise_insertSorted {α : Type} (le : α → α → Bool) (x : α)
    (l : List α)
    (total : ∀ a ∈ x :: l, ∀ b ∈ x :: l, le a b = true ∨ le b a = true)
    (trans : ∀ a ∈ x :: l, ∀ b ∈ x :: l, ∀ c ∈ x :: l,
      le a b = true → le b c = true → le a c = true)
    (hl : l.Pairwise (fun a b => le a b = true)) :
    (insertSorted le x l).Pairwise (fun a b => le a b = true) := by
  induction l with
  | nil => simp [insertSorted]
  | cons z zs ih =>
    rcases List.pairwise_cons.mp hl with ⟨hz, hzs⟩
    have hsub : ∀ w ∈ x :: zs, w ∈ x :: z :: zs := by
      intro w hw
      rcases List.mem_cons.mp hw with hwx | hw
      · rw [hwx]; simp
      · simp [hw]
    unfold insertSorted
    by_cases h : le x z = true
    · rw [if_pos h]
      refine List.pairwise_cons.mpr ⟨?_, hl⟩
      intro w hw
      rcases List.mem_cons.mp hw with hwz | hw
      · rw [hwz]; exact h
      · exact trans x (by simp) z (by simp) w (by simp [hw]) h (hz w hw)
    · rw [if_neg h]
      refine List.pairwise_cons.mpr ⟨?_, ?_⟩
      · intro w hw
        rcases (mem_insertSorted le x w zs).mp hw with hwx | hw
        · rw [hwx]
          rcases total x (by simp) z (by simp) with htot | htot
          · exact absurd htot h
          · exact htot
        · exact hz w hw
      · refine ih ?_ ?_ hzs
        · intro a ha b hb
          exact total a (hsub a ha) b (hsub b hb)
        · intro a ha b hb c hc
          exact trans a (hsub a ha) b (hsub b hb) c (hsub c hc)

theorem mem_sortBy {α : Type} (le : α → α → Bool) (y : α) (l : List α) :
    y ∈ sortBy le l ↔ y ∈ l := by
  induction l with
  | nil => simp [sortBy]
  | cons x xs ih =>
    unfold sortBy
    rw [mem_insertSorted, ih, List.mem_cons]

theorem pairwise_sortBy {α : Type} (le : α → α → Bool) (l : List α)
    (total : ∀ a ∈ l, ∀ b ∈ l, le a b = true ∨ le b a = true)
    (trans : ∀ a ∈ l, ∀ b ∈ l, ∀ c ∈ l,
      le a b = true → le b c = true → le a c = true) :
    (sortBy le l).Pairwise (fun a b => le a b = true) := by
  induction l with
  | nil => simp [sortBy]
  | cons x xs ih =>
    unfold sortBy
    have hmem : ∀ a ∈ x :: sortBy le xs, a ∈ x :: xs := by
      intro a ha
      rcases List.mem_cons.mp ha with rfl | ha
      · simp
      · exact List.mem_cons_of_mem _ ((mem_sortBy le a xs).mp ha)
    refine pairwise_insertSorted le x (sortBy le xs) ?_ ?_ ?_
    · intro a ha b hb
      exact total a (hmem a ha) b (hmem b hb)
    · intro a ha b hb c hc
      exact trans a (hmem a ha) b (hmem b hb) c (hmem c hc)
    · refine ih ?_ ?_
      · intro a ha b hb
        exact total a (List.mem_cons_of_mem _ ha) b (List.mem_cons_of_mem _ hb)
      · intro a ha b hb c hc
        exact trans a (List.mem_cons_of_mem _ ha) b (List.mem_cons_of_mem _ hb)
          c (List.mem_cons_of_mem _ hc)

/-! ## Claim C7 — dashboard summary ordering -/

/-- C7: the dashboard summary list is sorted by the comparator (every
adjacent-or-later pair compares `≤ 0`); on rows with a parseable
last-seen (every stored card has one) the comparator order is exactly the
specified lexicographic order — online before offline, then status-since
(offline-since for offline cards) descending, then last-seen descending,
then display title; the concrete two-online/two-offline scenario orders
as [online-newer-since, online-older-since, offline-newer,
offline-older]. -/
theorem claim7_dashboard_order :
    (∀ (stored : DB) (nowMs : Int),
      (getDashboard stored nowMs).Pairwise
        (fun a b => compareDashboardMachines a b ≤ 0)) ∧
    (∀ a b : DashboardRow, a.last_seen ≠ none → b.last_seen ≠ none →
      (compareDashboardMachines a b ≤ 0 ↔ specDashboardLe a b)) ∧
    ((getDashboard presenceDB 100000).map
        (fun r => (r.id, r.agent_status, r.status_since)) =
      [("a", "online", 100000), ("b", "online", 99000),
       ("c", "offline", 55000), ("d", "offline", 45000)]) := by
  refine ⟨?_, compare_le_iff_spec, by decide⟩
  intro stored nowMs
  unfold getDashboard
  have hseen : ∀ r ∈ (ensureDBShape nowMs stored).machines.map
      (dashboardRow (ensureDBShape nowMs stored).tasks nowMs),
      r.last_seen ≠ none := by
    intro r hr
    rcases List.mem_map.mp hr with ⟨m, hm, hrm⟩
    rw [← hrm]
    show m.last_seen ≠ none
    exact dedupeMachines_last_seen m hm
  have hp := pairwise_sortBy
    (fun a b => decide (compareDashboardMachines a b ≤ 0))
    ((ensureDBShape nowMs stored).machines.map
      (dashboardRow (ensureDBShape nowMs stored).tasks nowMs))
    (fun a ha b hb => by
      rcases specDashboardLe_total a b with h | h
      · exact Or.inl (decide_eq_true
          ((compare_le_iff_spec a b (hseen a ha) (hseen b hb)).mpr h))
      · exact Or.inr (decide_eq_true
          ((compare_le_iff_spec b a (hseen b hb) (hseen a ha)).mpr h)))
    (fun a ha b hb c hc h1 h2 => by
      have s1 := (compare_le_iff_spec a b (hseen a ha) (hseen b hb)).mp
        (of_decide_eq_true h1)
      have s2 := (compare_le_iff_spec b c (hseen b hb) (hseen c hc)).mp
        (of_decide_eq_true h2)
      exact decide_eq_true ((compare_le_iff_spec a c (hseen a ha)
        (hseen c hc)).mpr (specDashboardLe_trans s1 s2)))
  exact hp.imp (fun h => of_decide_eq_true h)

/-! ## Claim C1 — identity-pair uniqueness infrastructure -/

theorem pairwise_imp_mem {α : Type} {R S : α → α → Prop} {l : List α}
    (h : ∀ a ∈ l, ∀ b ∈ l, R a b → S a b) (hl : l.Pairwise R) :
    l.Pairwise S := by
  induction l with
  | nil => exact List.Pairwise.nil
  | cons x xs ih =>
    rcases List.pairwise_cons.mp hl with ⟨hx, hxs⟩
    refine List.pairwise_cons.mpr ⟨?_, ?_⟩
    · intro b hb
      exact h x (List.mem_cons_self _ _) b (List.mem_cons_of_mem _ hb) (hx b hb)
    · exact ih (fun a ha b hb =>
        h a (List.mem_cons_of_mem _ ha) b (List.mem_cons_of_mem _ hb)) hxs

theorem listSet_keys_distinct {α : Type} {l : List (String × α)}
    {k : String} {v : α} (hl : l.Pairwise (fun a b => a.1 ≠ b.1)) :
    (listSet l k v).Pairwise (fun a b => a.1 ≠ b.1) := by
  induction l with
  | nil => simp [listSet]
  | cons p rest ih =>
    rcases List.pairwise_cons.mp hl with ⟨hp, hrest⟩
    unfold listSet
    by_cases hk : p.1 = k
    · rw [if_pos hk]
      refine List.pairwise_cons.mpr ⟨?_, hrest⟩
      intro e he
      exact hp e he
    · rw [if_neg hk]
      refine List.pairwise_cons.mpr ⟨?_, ih hrest⟩
      intro e he
      rcases mem_listSet he with h | h
      · exact hp e h
      · rw [h]
        exact hk

theorem listSet_entries {α : Type} {P : String × α → Prop}
    {l : List (String × α)} {k : String} {v : α}
    (hl : ∀ e ∈ l, P e) (hv : P (k, v)) : ∀ e ∈ listSet l k v, P e := by
  intro e he
  rcases mem_listSet he with h | h
  · exact hl e h
  · rw [h]
    exact hv

theorem ne_nil_of_trim_ne {s : String} (h : jsTrim s ≠ "") : s ≠ "" := by
  intro hs
  exact h (by rw [hs]; rfl)

theorem dedupeStep_ok (now : Int) {acc : List (String × Machine)}
    {m : Machine} (hm : jsTrim m.id ≠ "")
    (hacc1 : acc.Pairwise (fun a b => a.1 ≠ b.1))
    (hacc2 : ∀ e ∈ acc, MachineEntryOk e) :
    (dedupeMachinesStep now acc m).Pairwise (fun a b => a.1 ≠ b.1) ∧
    ∀ e ∈ dedupeMachinesStep now acc m, MachineEntryOk e := by
  have hid : m.id ≠ "" := ne_nil_of_trim_ne hm
  have hfp : normalizeMachineFingerprint m.fingerprint m.id ≠ "" :=
    normalizeMachineFingerprint_ne_of_id hm
  unfold dedupeMachinesStep
  rw [if_neg hid]
  dsimp only
  split
  · exact ⟨listSet_keys_distinct hacc1,
      listSet_entries hacc2
        ⟨hm, hfp, normalizeMachineFingerprint_trimmed _ _,
         normalizeAgentName_ne_nil _ _, normalizeAgentName_trimmed _ _, rfl⟩⟩
  · rename_i existing hget
    have hex := hacc2 _ (listGet_mem hget)
    split
    · refine ⟨listSet_keys_distinct hacc1, listSet_entries hacc2 ?_⟩
      have hname : (if normalizeAgentName m.name m.id ≠ "" then
          normalizeAgentName m.name m.id
          else if existing.name ≠ "" then existing.name else m.id) =
          normalizeAgentName m.name m.id := by
        rw [if_pos (normalizeAgentName_ne_nil _ _)]
      refine ⟨hex.1, hfp, normalizeMachineFingerprint_trimmed _ _, ?_, ?_, ?_⟩
      · show (if normalizeAgentName m.name m.id ≠ "" then _ else _) ≠ ""
        rw [hname]
        exact normalizeAgentName_ne_nil _ _
      · show jsTrim (if normalizeAgentName m.name m.id ≠ "" then _ else _) = _
        rw [hname]
        exact normalizeAgentName_trimmed _ _
      · show machineIdentityKey _ _ =
          machineIdentityKey _ (if normalizeAgentName m.name m.id ≠ "" then _ else _)
        rw [hname]
    · refine ⟨listSet_keys_distinct hacc1, listSet_entries hacc2 ?_⟩
      exact ⟨hex.1, hex.2.1, hex.2.2.1, hex.2.2.2.1, hex.2.2.2.2.1,
        hex.2.2.2.2.2⟩

theorem dedupe_fold_ok (now : Int) (ms : List Machine) :
    ∀ acc : List (String × Machine),
      (∀ m ∈ ms, jsTrim m.id ≠ "") →
      acc.Pairwise (fun a b => a.1 ≠ b.1) →
      (∀ e ∈ acc, MachineEntryOk e) →
      (ms.foldl (dedupeMachinesStep now) acc).Pairwise (fun a b => a.1 ≠ b.1) ∧
      ∀ e ∈ ms.foldl (dedupeMachinesStep now) acc, MachineEntryOk e := by
  induction ms with
  | nil => intro acc _ h1 h2; exact ⟨h1, h2⟩
  | cons m rest ih =>
    intro acc hms h1 h2
    rw [List.foldl_cons]
    have hstep := dedupeStep_ok now (hms m (List.mem_cons_self _ _)) h1 h2
    exact ih _ (fun x hx => hms x (List.mem_cons_of_mem _ hx)) hstep.1 hstep.2

theorem machinePairOf_of_ok {m : Machine} (hfp : m.fingerprint ≠ "")
    (hfpt : jsTrim m.fingerprint = m.fingerprint) (hn : m.name ≠ "")
    (hnt : jsTrim m.name = m.name) :
    machinePairOf m = (m.fingerprint, m.name) := by
  unfold machinePairOf
  rw [normalizeMachineFingerprint_stable hfpt hfp,
    normalizeAgentName_stable hnt hn]

theorem dedupeMachines_ok {now : Int} {ms : List Machine}
    (h : ∀ m ∈ ms, jsTrim m.id ≠ "") :
    (dedupeMachines now ms).Pairwise
      (fun a b => machinePairOf a ≠ machinePairOf b) ∧
    ∀ m ∈ dedupeMachines now ms, jsTrim m.id ≠ "" := by
  obtain ⟨hkd, hok⟩ := dedupe_fold_ok now ms [] h (by simp) (by simp)
  constructor
  · unfold dedupeMachines
    rw [List.pairwise_map]
    refine pairwise_imp_mem (l := ms.foldl (dedupeMachinesStep now) [])
      ?_ hkd
    intro a ha b hb hne hpair
    obtain ⟨_, hafp, haft, han, hant, hak⟩ := hok a ha
    obtain ⟨_, hbfp, hbft, hbn, hbnt, hbk⟩ := hok b hb
    apply hne
    rw [hak, hbk]
    have hpa := machinePairOf_of_ok hafp haft han hant
    have hpb := machinePairOf_of_ok hbfp hbft hbn hbnt
    rw [hpa, hpb] at hpair
    have h1 : a.2.fingerprint = b.2.fingerprint := congrArg Prod.fst hpair
    have h2 : a.2.name = b.2.name := congrArg Prod.snd hpair
    rw [h1, h2]
  · intro m hm
    unfold dedupeMachines at hm
    rcases List.mem_map.mp hm with ⟨e, he, hrm⟩
    rw [← hrm]
    exact (hok e he).1

theorem upsertTask_machines (cid gs : String) (now : Int) (db : DB)
    (t : InTask) : (upsertTask cid gs now db t).machines = db.machines := by
  unfold upsertTask
  by_cases h : t.id = ""
  · rw [if_pos h]
  · rw [if_neg h]
    dsimp only
    split <;> rfl

theorem foldl_upsert_machines (ts : List InTask) (cid gs : String)
    (now : Int) (db : DB) :
    (ts.foldl (upsertTask cid gs now) db).machines = db.machines := by
  induction ts generalizing db with
  | nil => rfl
  | cons t rest ih =>
    rw [List.foldl_cons, ih, upsertTask_machines]

theorem mergeDuplicateStep_id
    (acc : Machine × List String × List Task × List HistoryEvent)
    (dup : Machine) : (mergeDuplicateStep acc dup).1.id = acc.1.id := by
  unfold mergeDuplicateStep
  dsimp only
  repeat' split
  all_goals rfl

theorem mergeFold_id (dups : List Machine)
    (acc : Machine × List String × List Task × List HistoryEvent) :
    (dups.foldl mergeDuplicateStep acc).1.id = acc.1.id := by
  induction dups generalizing acc with
  | nil => rfl
  | cons d rest ih =>
    rw [List.foldl_cons, ih, mergeDuplicateStep_id]

theorem mergeMachineRecords_ids {db : DB} {canonIdx : Nat}
    (h : ∀ m ∈ db.machines, jsTrim m.id ≠ "") :
    ∀ m ∈ (mergeMachineRecords db canonIdx).machines, jsTrim m.id ≠ "" := by
  unfold mergeMachineRecords
  split
  · exact h
  · rename_i canon0 hget
    dsimp only
    split
    · exact h
    · intro m hm
      have hm' := List.mem_filter.mp hm
      rcases List.mem_or_eq_of_mem_set hm'.1 with hmem | hcanon
      · exact h m hmem
      · rw [hcanon]
        show jsTrim (_ : Machine).id ≠ ""
        have : ({ (List.foldl mergeDuplicateStep
            (canon0, setAdd (canon0.aliases.foldl setAdd []) canon0.id,
              db.tasks, db.history)
            (db.machines.filter (fun m => m.id ≠ "" ∧ m.id ≠ canon0.id ∧
              normalizeMachineFingerprint m.fingerprint m.id =
                normalizeMachineFingerprint canon0.fingerprint canon0.id ∧
              normalizeAgentName m.name m.id =
                normalizeAgentName canon0.name canon0.id))).1 with
            aliases := dedupeAliases (List.foldl mergeDuplicateStep
              (canon0, setAdd (canon0.aliases.foldl setAdd []) canon0.id,
                db.tasks, db.history)
              (db.machines.filter (fun m => m.id ≠ "" ∧ m.id ≠ canon0.id ∧
                normalizeMachineFingerprint m.fingerprint m.id =
                  normalizeMachineFingerprint canon0.fingerprint canon0.id ∧
                normalizeAgentName m.name m.id =
                  normalizeAgentName canon0.name canon0.id))).2.1 } : Machine).id =
            canon0.id := by
          show (List.foldl mergeDuplicateStep _ _).1.id = canon0.id
          rw [mergeFold_id]
        rw [this]
        exact h canon0 (List.get?_mem hget)

theorem pickIdLoop_trim {db : DB} {baseId agentToken : String}
    {nowMs : Int} (h : jsTrim baseId ≠ "") :
    ∀ (fuel counter : Nat),
      jsTrim (pickIdLoop db baseId agentToken nowMs fuel counter) ≠ "" := by
  intro fuel
  induction fuel with
  | zero =>
    intro counter
    exact jsTrim_append_left_ne _ (jsTrim_append_left_ne _ h)
  | succ n ih =>
    intro counter
    unfold pickIdLoop
    dsimp only
    split
    · exact ih (counter + 1)
    · exact jsTrim_append_left_ne _ (jsTrim_append_left_ne _
        (jsTrim_append_left_ne _ (jsTrim_append_left_ne _ h)))

theorem pickMachineRecordId_trim (db : DB)
    (machineId machineFingerprint machineName : String) (nowMs : Int) :
    pickMachineRecordId db machineId machineFingerprint machineName nowMs = "" ∨
    jsTrim (pickMachineRecordId db machineId machineFingerprint machineName
      nowMs) ≠ "" := by
  unfold pickMachineRecordId
  by_cases hb : jsTrim machineId = ""
  · rw [if_pos hb]
    exact Or.inl rfl
  · rw [if_neg hb]
    dsimp only
    have hbt : jsTrim (jsTrim machineId) ≠ "" := by
      rw [jsTrim_idem]; exact hb
    split
    · exact Or.inr hbt
    · split
      · exact Or.inr hbt
      · exact Or.inr (pickIdLoop_trim hbt 999 1)

theorem sourceMachineId_trim {machineId sourceToken : String}
    (hmid : jsTrim machineId ≠ "") :
    jsTrim (if sourceToken = "" then machineId
      else machineId ++ "::" ++ sourceToken) ≠ "" := by
  split
  · exact hmid
  · exact jsTrim_append_left_ne _ (jsTrim_append_left_ne _ hmid)

theorem newMachineRecord_id_trim {db : DB}
    {sourceMachineId machineId machineFingerprint sourceMachineName : String}
    {nowMs : Int} (hsrc : jsTrim sourceMachineId ≠ "") :
    jsTrim (newMachineRecord db sourceMachineId machineId machineFingerprint
      sourceMachineName nowMs).id ≠ "" := by
  unfold newMachineRecord
  dsimp only
  split
  · rename_i hrec
    rcases pickMachineRecordId_trim db sourceMachineId machineFingerprint
      sourceMachineName nowMs with hp | hp
    · exact absurd hp hrec
    · exact hp
  · exact hsrc

theorem upsertMachineCard_ids {db : DB}
    {sourceMachineId machineId machineFingerprint sourceMachineName : String}
    {nowMs : Int} (hsrc : jsTrim sourceMachineId ≠ "")
    (h : ∀ m ∈ db.machines, jsTrim m.id ≠ "") :
    ∀ m ∈ (upsertMachineCard db sourceMachineId machineId machineFingerprint
      sourceMachineName nowMs).1.machines, jsTrim m.id ≠ "" := by
  unfold upsertMachineCard
  split
  · intro m hm
    dsimp only at hm
    rcases List.mem_append.mp hm with hmem | hnew
    · exact h m hmem
    · rw [List.mem_singleton.mp hnew]
      exact newMachineRecord_id_trim hsrc
  · split
    · exact h
    · rename_i m0 hget
      intro m hm
      dsimp only at hm
      rcases List.mem_or_eq_of_mem_set hm with hmem | hset
      · exact h m hmem
      · rw [hset]
        show jsTrim m0.id ≠ ""
        exact h m0 (List.get?_mem hget)

theorem processGroup_ids {machineId machineName machineFingerprint : String}
    {nowMs : Int} {acc : DB × String} {group : TaskGroup}
    (hmid : jsTrim machineId ≠ "")
    (h : ∀ m ∈ acc.1.machines, jsTrim m.id ≠ "") :
    ∀ m ∈ (processGroup machineId machineName machineFingerprint nowMs acc
      group).1.machines, jsTrim m.id ≠ "" := by
  unfold processGroup
  dsimp only
  intro m hm
  rw [foldl_upsert_machines] at hm
  exact mergeMachineRecords_ids
    (upsertMachineCard_ids (sourceMachineId_trim hmid) h) m hm

theorem foldl_processGroup_ids
    (machineId machineName machineFingerprint : String) (nowMs : Int)
    (groups : List TaskGroup) (hmid : jsTrim machineId ≠ "") :
    ∀ acc : DB × String, (∀ m ∈ acc.1.machines, jsTrim m.id ≠ "") →
    ∀ m ∈ (groups.foldl
      (processGroup machineId machineName machineFingerprint nowMs)
      acc).1.machines, jsTrim m.id ≠ "" := by
  induction groups with
  | nil => intro acc h; exact h
  | cons g rest ih =>
    intro acc h
    rw [List.foldl_cons]
    exact ih _ (processGroup_ids hmid h)

/-- C1 (amended): provided every reported machine id trims non-blank (and
so every stored card id does too), the stored machine set after a
successful `POST /report` contains at most one Card per distinct
normalized (fingerprint, agentName) pair.  (The proviso is needed: an
all-whitespace machine id defeats the fingerprint fallback and, combined
with `::` in names, lets two cards with the same normalized pair
survive — see the counterexample.) -/
theorem claim1_machine_pair_unique_amended (stored : DB) (payload : Report)
    (nowMs : Int) (h1 : jsTrim payload.machine_id ≠ "")
    (h2 : ∀ m ∈ stored.machines, jsTrim m.id ≠ "") :
    ((handleReport stored payload nowMs).2).machines.Pairwise
      (fun a b => machinePairOf a ≠ machinePairOf b) := by
  unfold handleReport
  rw [if_neg (ne_nil_of_trim_ne h1)]
  dsimp only
  refine (dedupeMachines_ok ?_).1
  refine foldl_processGroup_ids payload.machine_id _ _ nowMs _ h1 _ ?_
  exact (dedupeMachines_ok h2).2

/-- C1 witness: a simple report against the empty store leaves pairwise
distinct identity pairs. -/
theorem claim1_witness :
    ((handleReport emptyDB reportIP 1000).2).machines.Pairwise
      (fun a b => machinePairOf a ≠ machinePairOf b) :=
  claim1_machine_pair_unique_amended emptyDB reportIP 1000 (by decide)
    (by intro m hm; simp [emptyDB] at hm)

/-- C1 counterexample: three accepted reports — `(X, fp ":", name ":N")`,
`(Y, fp "X", name "::N")`, then `(" ", blank fp, name "::N")` — leave the
store with two Cards whose normalized (fingerprint, agentName) pairs are
both `("X", "::N")`: the claimed invariant fails on the code as stated. -/
theorem claim1_counterexample :
    (handleReport emptyDB cxReport1 1000).1 ≠ ReportResult.badRequest ∧
    (handleReport (handleReport emptyDB cxReport1 1000).2 cxReport2
      2000).1 ≠ ReportResult.badRequest ∧
    (handleReport (handleReport (handleReport emptyDB cxReport1 1000).2
      cxReport2 2000).2 cxReport3 3000).1 ≠ ReportResult.badRequest ∧
    cxFinalDB.machines.map machinePairOf =
      [("X", "::N"), ("X", "::N")] ∧
    ¬ cxFinalDB.machines.Pairwise
      (fun a b => machinePairOf a ≠ machinePairOf b) := by
  refine ⟨by decide, by decide, by decide, by decide, ?_⟩
  intro h
  have hmap : (cxFinalDB.machines.map machinePairOf).Pairwise
      (fun a b => a ≠ b) := List.pairwise_map.mpr h
  rw [show cxFinalDB.machines.map machinePairOf =
    [("X", "::N"), ("X", "::N")] from by decide] at hmap
  exact (List.pairwise_cons.mp hmap).1 _ (List.mem_singleton_self _) rfl

/-! ## Claim C5 — string infrastructure -/

theorem string_ext {a b : String} (h : a.data = b.data) : a = b :=
  congrArg String.mk h

theorem string_data_ne_nil {s : String} (h : s ≠ "") : s.data ≠ [] := by
  intro hd
  exact h (string_ext hd)

theorem strAppend_left_cancel {a b c : String} (h : a ++ b = a ++ c) :
    b = c := by
  have hd := congrArg String.data h
  rw [String.data_append, String.data_append] at hd
  exact string_ext (List.append_cancel_left hd)

theorem strAppend_ne_nil_left {a : String} (b : String) (h : a ≠ "") :
    a ++ b ≠ "" := by
  intro hc
  have hd := congrArg String.data hc
  rw [String.data_append] at hd
  rcases List.append_eq_nil.mp hd with ⟨h1, _⟩
  exact string_data_ne_nil h h1

theorem head?_append_left {l₁ l₂ : List Char} (h : l₁ ≠ []) :
    (l₁ ++ l₂).head? = l₁.head? := by
  cases l₁ with
  | nil => exact absurd rfl h
  | cons c rest => rfl

theorem trimmed_head_not_ws {s : String} (ht : jsTrim s = s) :
    ∀ c, s.data.head? = some c → isWs c = false := by
  intro c hc
  have hd : trimChars s.data = s.data := congrArg String.data ht
  rw [← hd] at hc
  exact trimChars_head_fails hc

theorem trimmed_last_not_ws {s : String} (ht : jsTrim s = s) :
    ∀ c, s.data.getLast? = some c → isWs c = false := by
  intro c hc
  have hd : trimChars s.data = s.data := congrArg String.data ht
  rw [← hd] at hc
  exact trimChars_last_fails hc

theorem jsTrim_append_trimmed {a b : String} (ha : jsTrim a = a)
    (hane : a ≠ "") (hb : jsTrim b = b) (hbne : b ≠ "") :
    jsTrim (a ++ b) = a ++ b := by
  have had := string_data_ne_nil hane
  have hbd := string_data_ne_nil hbne
  show String.mk (trimChars (a ++ b).data) = a ++ b
  rw [String.data_append]
  rw [trimChars_eq_self ?_ ?_]
  · exact string_ext (String.data_append a b).symm
  · intro c hc
    rw [head?_append_left had] at hc
    exact trimmed_head_not_ws ha c hc
  · intro c hc
    rw [getLast?_append_right hbd] at hc
    exact trimmed_last_not_ws hb c hc

theorem dashSlug_chars (s : String) :
    ∀ c ∈ (dashSlug s).data, isSlugChar c = true ∨ c = '-' := by
  intro c hc
  unfold dashSlug at hc
  have hc' : c ∈ squeezeDashes (dashifyChars (jsLower s).data) := hc
  have hsq : ∀ (l : List Char), c ∈ squeezeDashes l → c ∈ l := by
    intro l
    induction l with
    | nil => intro h; exact h
    | cons d rest ih =>
      intro h
      unfold squeezeDashes at h
      by_cases hd : d = '-' ∧ rest.head? = some '-'
      · rw [if_pos hd] at h
        exact List.mem_cons_of_mem _ (ih h)
      · rw [if_neg hd] at h
        rcases List.mem_cons.mp h with h | h
        · rw [h]; exact List.mem_cons_self _ _
        · exact List.mem_cons_of_mem _ (ih h)
  have hc2 : c ∈ dashifyChars (jsLower s).data := hsq _ hc'
  unfold dashifyChars at hc2
  rcases List.mem_map.mp hc2 with ⟨d, _, hd⟩
  by_cases hs : isSlugChar d = true
  · left; rw [← hd, if_pos hs]; exact hs
  · right; rw [← hd, if_neg hs]

theorem stripDashes_subset {l : List Char} {c : Char}
    (h : c ∈ stripDashes l) : c ∈ l := by
  unfold stripDashes at h
  rw [List.mem_reverse] at h
  have h1 := (List.dropWhile_sublist (l := (l.dropWhile (· = '-')).reverse)
    (p := (· = '-'))).subset h
  rw [List.mem_reverse] at h1
  exact (List.dropWhile_sublist (l := l) (p := (· = '-'))).subset h1

theorem sourceToken_chars (s : String) :
    ∀ c ∈ (normalizeSourceToken s).data, isSlugChar c = true ∨ c = '-' := by
  intro c hc
  unfold normalizeSourceToken at hc
  by_cases h : normalizeTaskSource s = ""
  · rw [if_pos h] at hc
    simp at hc
  · rw [if_neg h] at hc
    exact dashSlug_chars _ c (stripDashes_subset hc)

theorem sourceToken_no_colon (s : String) :
    ∀ c ∈ (normalizeSourceToken s).data, c ≠ ':' := by
  intro c hc hcolon
  rcases sourceToken_chars s c hc with h | h
  · rw [hcolon] at h
    exact absurd h (by decide)
  · rw [hcolon] at h
    exact absurd h (by decide)

theorem slugChar_not_ws {c : Char} (h : isSlugChar c = true) :
    isWs c = false := by
  by_contra hws
  have hws' : isWs c = true := by
    revert hws
    cases isWs c <;> simp
  unfold isWs at hws'
  rcases of_decide_eq_true hws' with rfl | rfl | rfl | rfl <;>
    exact absurd h (by decide)

theorem sourceToken_not_ws (s : String) :
    ∀ c ∈ (normalizeSourceToken s).data, isWs c = false := by
  intro c hc
  rcases sourceToken_chars s c hc with h | h
  · exact slugChar_not_ws h
  · rw [h]
    decide

theorem head?_mem {l : List Char} {c : Char} (h : l.head? = some c) :
    c ∈ l := by
  cases l with
  | nil => simp at h
  | cons d rest =>
    rw [List.head?_cons] at h
    rw [Option.some_inj.mp h]
    exact List.mem_cons_self _ _

theorem getLast?_mem {l : List Char} {c : Char} (h : l.getLast? = some c) :
    c ∈ l := by
  have h' : l.reverse.head? = some c := by rw [List.head?_reverse]; exact h
  exact List.mem_reverse.mp (head?_mem h')

theorem trimmed_of_no_ws {s : String}
    (h : ∀ c ∈ s.data, isWs c = false) : jsTrim s = s := by
  show String.mk (trimChars s.data) = s
  rw [trimChars_eq_self (fun c hc => h c (head?_mem hc))
    (fun c hc => h c (getLast?_mem hc))]

theorem sep_parse {a b x y : List Char}
    (ha : ∀ c ∈ a, c ≠ ':') (hb : ∀ c ∈ b, c ≠ ':')
    (h : a ++ ':' :: ':' :: x = b ++ ':' :: ':' :: y) : a = b ∧ x = y := by
  induction a generalizing b with
  | nil =>
    cases b with
    | nil =>
      refine ⟨rfl, ?_⟩
      simpa using h
    | cons d ds =>
      exfalso
      rw [List.nil_append, List.cons_append] at h
      have : (':' : Char) = d := (List.cons.injEq .. ▸ h).1
      exact hb d (List.mem_cons_self _ _) this.symm
  | cons c cs ih =>
    cases b with
    | nil =>
      exfalso
      rw [List.nil_append, List.cons_append] at h
      have : c = ':' := (List.cons.injEq .. ▸ h).1
      exact ha c (List.mem_cons_self _ _) this
    | cons d ds =>
      rw [List.cons_append, List.cons_append] at h
      have h1 : c = d := (List.cons.injEq .. ▸ h).1
      have h2 : cs ++ ':' :: ':' :: x = ds ++ ':' :: ':' :: y :=
        (List.cons.injEq .. ▸ h).2
      have := ih (fun e he => ha e (List.mem_cons_of_mem _ he))
        (fun e he => hb e (List.mem_cons_of_mem _ he)) h2
      exact ⟨by rw [h1, this.1], this.2⟩

theorem sep_parse_str {a b x y : String}
    (ha : ∀ c ∈ a.data, c ≠ ':') (hb : ∀ c ∈ b.data, c ≠ ':')
    (h : a ++ "::" ++ x = b ++ "::" ++ y) : a = b ∧ x = y := by
  have hd := congrArg String.data h
  simp only [String.data_append] at hd
  have hd' : a.data ++ ':' :: ':' :: x.data = b.data ++ ':' :: ':' :: y.data := by
    have e1 : a.data ++ (":" ++ ":").data ++ x.data =
        a.data ++ ':' :: ':' :: x.data := by
      simp
    have e2 : b.data ++ (":" ++ ":").data ++ y.data =
        b.data ++ ':' :: ':' :: y.data := by
      simp
    calc a.data ++ ':' :: ':' :: x.data
        = a.data ++ ("::" : String).data ++ x.data := by simp
      _ = b.data ++ ("::" : String).data ++ y.data := hd
      _ = b.data ++ ':' :: ':' :: y.data := by simp
  have := sep_parse ha hb hd'
  exact ⟨string_ext this.1, string_ext this.2⟩

/-! ## Claim C5 — source normalization facts -/

theorem normalizeTaskSource_trimmed (s : String) :
    jsTrim (normalizeTaskSource s) = normalizeTaskSource s := by
  unfold normalizeTaskSource
  by_cases h : jsTrim s = ""
  · rw [if_pos h]
    rfl
  · rw [if_neg h]
    dsimp only
    split
    · decide
    · split
      · decide
      · split
        · decide
        · exact jsTrim_idem s

theorem normalizeTaskSource_cases (s : String) :
    normalizeTaskSource s = "" ∨ normalizeTaskSource s = "Codex" ∨
    normalizeTaskSource s = "Claude Code" ∨
    normalizeTaskSource s = "OpenCode" ∨
    (normalizeTaskSource s = jsTrim s ∧ jsTrim s ≠ "" ∧
      ¬ (compactSource (jsTrim s) = "codex" ∨
         compactSource (jsTrim s) = "codexadapter" ∨
         compactSource (jsTrim s) = "codexlocal") ∧
      ¬ (compactSource (jsTrim s) = "claudecode" ∨
         compactSource (jsTrim s) = "claude") ∧
      compactSource (jsTrim s) ≠ "opencode") := by
  unfold normalizeTaskSource
  by_cases h0 : jsTrim s = ""
  · left; rw [if_pos h0]
  · rw [if_neg h0]
    dsimp only
    by_cases h1 : compactSource (jsTrim s) = "codex" ∨
        compactSource (jsTrim s) = "codexadapter" ∨
        compactSource (jsTrim s) = "codexlocal"
    · right; left; rw [if_pos h1]
    · rw [if_neg h1]
      by_cases h2 : compactSource (jsTrim s) = "claudecode" ∨
          compactSource (jsTrim s) = "claude"
      · right; right; left; rw [if_pos h2]
      · rw [if_neg h2]
        by_cases h3 : compactSource (jsTrim s) = "opencode"
        · right; right; right; left; rw [if_pos h3]
        · right; right; right; right
          exact ⟨by rw [if_neg h3], h0, h1, h2, h3⟩

theorem normalizeTaskSource_idem (s : String) :
    normalizeTaskSource (normalizeTaskSource s) = normalizeTaskSource s := by
  rcases normalizeTaskSource_cases s with h | h | h | h | ⟨h, hne, h1, h2, h3⟩
  · rw [h]; decide
  · rw [h]; decide
  · rw [h]; decide
  · rw [h]; decide
  · rw [h]
    unfold normalizeTaskSource
    rw [jsTrim_idem, if_neg hne]
    dsimp only
    rw [if_neg h1, if_neg h2, if_neg h3]

theorem normalizeInTask_fix {t : InTask}
    (h : normalizeTaskSource t.source = t.source) : normalizeInTask t = t := by
  unfold normalizeInTask
  rw [h]

/-! ## Claim C5 — deduplication and grouping of fresh task lists -/

theorem listSet_append {α : Type} {l : List (String × α)} {k : String}
    {v : α} (h : ∀ e ∈ l, e.1 ≠ k) : listSet l k v = l ++ [(k, v)] := by
  induction l with
  | nil => rfl
  | cons p rest ih =>
    unfold listSet
    rw [if_neg (h p (List.mem_cons_self _ _)),
      ih (fun e he => h e (List.mem_cons_of_mem _ he))]
    rfl

theorem dedupeIncoming_foldl_fresh (ts : List InTask) :
    ∀ acc : List (String × InTask),
      (∀ t ∈ ts, t.id ≠ "") →
      ((ts.map dedupeInKey).Pairwise (· ≠ ·)) →
      (∀ t ∈ ts, ∀ e ∈ acc, (e : String × InTask).1 ≠ dedupeInKey t) →
      ts.foldl dedupeIncomingTasksStep acc =
        acc ++ ts.map (fun t => (dedupeInKey t, normalizeInTask t)) := by
  induction ts with
  | nil => intro acc _ _ _; simp
  | cons t rest ih =>
    intro acc hid hkeys hacc
    rw [List.map_cons] at hkeys
    rcases List.pairwise_cons.mp hkeys with ⟨hhead, hrest⟩
    rw [List.foldl_cons]
    have hstep : dedupeIncomingTasksStep acc t =
        acc ++ [(dedupeInKey t, normalizeInTask t)] := by
      unfold dedupeIncomingTasksStep
      rw [if_neg (hid t (List.mem_cons_self _ _))]
      exact listSet_append (fun e he => hacc t (List.mem_cons_self _ _) e he)
    rw [hstep, ih _ (fun u hu => hid u (List.mem_cons_of_mem _ hu)) hrest ?_]
    · rw [List.map_cons, List.append_assoc]
      rfl
    · intro u hu e he
      rcases List.mem_append.mp he with hmem | hnew
      · exact hacc u (List.mem_cons_of_mem _ hu) e hmem
      · rw [List.mem_singleton.mp hnew]
        exact hhead _ (List.mem_map_of_mem _ hu)

theorem dedupeIncomingTasks_fresh {ts : List InTask}
    (hid : ∀ t ∈ ts, t.id ≠ "")
    (hkeys : (ts.map dedupeInKey).Pairwise (· ≠ ·)) :
    dedupeIncomingTasks ts = ts.map normalizeInTask := by
  unfold dedupeIncomingTasks
  rw [dedupeIncoming_foldl_fresh ts [] hid hkeys (by intro t _ e he; simp at he)]
  rw [List.nil_append, List.map_map]
  rfl

theorem dedupeStored_foldl_fresh (ts : List Task) :
    ∀ acc : List (String × Task),
      (∀ t ∈ ts, ¬ (t.id = "" ∨ t.machine_id = "")) →
      ((ts.map (fun t => taskKey t.machine_id t.id)).Pairwise (· ≠ ·)) →
      (∀ t ∈ ts, ∀ e ∈ acc, (e : String × Task).1 ≠ taskKey t.machine_id t.id) →
      ts.foldl dedupeStoredTasksStep acc =
        acc ++ ts.map (fun t => (taskKey t.machine_id t.id,
          normalizeStoredTask t)) := by
  induction ts with
  | nil => intro acc _ _ _; simp
  | cons t rest ih =>
    intro acc hid hkeys hacc
    rw [List.map_cons] at hkeys
    rcases List.pairwise_cons.mp hkeys with ⟨hhead, hrest⟩
    rw [List.foldl_cons]
    have hstep : dedupeStoredTasksStep acc t =
        acc ++ [(taskKey t.machine_id t.id, normalizeStoredTask t)] := by
      unfold dedupeStoredTasksStep
      rw [if_neg (hid t (List.mem_cons_self _ _))]
      exact listSet_append (fun e he => hacc t (List.mem_cons_self _ _) e he)
    rw [hstep, ih _ (fun u hu => hid u (List.mem_cons_of_mem _ hu)) hrest ?_]
    · rw [List.map_cons, List.append_assoc]
      rfl
    · intro u hu e he
      rcases List.mem_append.mp he with hmem | hnew
      · exact hacc u (List.mem_cons_of_mem _ hu) e hmem
      · rw [List.mem_singleton.mp hnew]
        exact hhead _ (List.mem_map_of_mem _ hu)

theorem dedupeStoredTasks_fresh {ts : List Task}
    (hid : ∀ t ∈ ts, ¬ (t.id = "" ∨ t.machine_id = ""))
    (hkeys : (ts.map (fun t => taskKey t.machine_id t.id)).Pairwise (· ≠ ·)) :
    dedupeStoredTasks ts = ts.map normalizeStoredTask := by
  unfold dedupeStoredTasks
  rw [dedupeStored_foldl_fresh ts [] hid hkeys (by intro t _ e he; simp at he)]
  rw [List.nil_append, List.map_map]
  rfl

theorem pushGroup_append {groups : List (String × TaskGroup)} {key : String}
    {t : InTask} {src : String} (h : ∀ e ∈ groups, e.1 ≠ key) :
    pushGroup groups key t src = groups ++ [(key, ⟨src, [t]⟩)] := by
  induction groups with
  | nil => rfl
  | cons p rest ih =>
    unfold pushGroup
    rw [if_neg (h p (List.mem_cons_self _ _)),
      ih (fun e he => h e (List.mem_cons_of_mem _ he))]
    rfl

theorem pushGroup_last {pre : List (String × TaskGroup)} {key : String}
    {g : TaskGroup} {t : InTask} {src : String} (h : ∀ e ∈ pre, e.1 ≠ key) :
    pushGroup (pre ++ [(key, g)]) key t src =
      pre ++ [(key, ⟨g.source, g.tasks ++ [t]⟩)] := by
  induction pre with
  | nil =>
    unfold pushGroup
    rw [List.nil_append]
    dsimp only
    rw [if_pos rfl, List.nil_append]
  | cons p rest ih =>
    rw [List.cons_append]
    unfold pushGroup
    rw [if_neg (h p (List.mem_cons_self _ _)),
      ih (fun e he => h e (List.mem_cons_of_mem _ he))]
    rfl

theorem split_fold_block (k : String) (ts : List InTask)
    (hts : ∀ t ∈ ts, t.id ≠ "" ∧ splitKeyOf t = k ∧ normalizeInTask t = t) :
    ∀ (pre : List (String × TaskGroup)) (g : TaskGroup),
      (∀ e ∈ pre, e.1 ≠ k) →
      ts.foldl splitTasksStep (pre ++ [(k, g)]) =
        pre ++ [(k, ⟨g.source, g.tasks ++ ts⟩)] := by
  induction ts with
  | nil =>
    intro pre g _
    simp
  | cons t rest ih =>
    intro pre g hpre
    obtain ⟨htid, htkey, htfix⟩ := hts t (List.mem_cons_self _ _)
    rw [List.foldl_cons]
    have hstep : splitTasksStep (pre ++ [(k, g)]) t =
        pre ++ [(k, ⟨g.source, g.tasks ++ [t]⟩)] := by
      unfold splitTasksStep
      rw [if_neg htid, htkey, htfix]
      exact pushGroup_last hpre
    rw [hstep,
      ih (fun u hu => hts u (List.mem_cons_of_mem _ hu)) pre
        ⟨g.source, g.tasks ++ [t]⟩ hpre]
    simp

/-- C7 witness: the comparator/spec-order equivalence at two concrete
rows (an online row sorts before an offline one). -/
theorem claim7_witness :
    compareDashboardMachines
        ⟨"a", "A", "A", "", "A", some 10, "online", 10, some 10, none, ⟨0, 0, 0⟩, 0⟩
        ⟨"b", "B", "B", "", "B", some 5, "offline", 6, none, some 6, ⟨0, 0, 0⟩, 0⟩ ≤ 0 ↔
      specDashboardLe
        ⟨"a", "A", "A", "", "A", some 10, "online", 10, some 10, none, ⟨0, 0, 0⟩, 0⟩
        ⟨"b", "B", "B", "", "B", some 5, "offline", 6, none, some 6, ⟨0, 0, 0⟩, 0⟩ :=
  claim7_dashboard_order.2.1
    ⟨"a", "A", "A", "", "A", some 10, "online", 10, some 10, none, ⟨0, 0, 0⟩, 0⟩
    ⟨"b", "B", "B", "", "B", some 5, "offline", 6, none, some 6, ⟨0, 0, 0⟩, 0⟩
    (by decide) (by decide)

/-! ## Claim C5 — generic evaluation lemmas for a two-source report -/

theorem strAppend_assoc (a b c : String) : a ++ b ++ c = a ++ (b ++ c) := by
  apply string_ext
  rw [String.data_append, String.data_append, String.data_append,
    String.data_append, List.append_assoc]

theorem map_fix {α : Type} {f : α → α} {l : List α}
    (h : ∀ a ∈ l, f a = a) : l.map f = l := by
  induction l with
  | nil => rfl
  | cons a rest ih =>
    rw [List.map_cons, h a (List.mem_cons_self _ _),
      ih (fun b hb => h b (List.mem_cons_of_mem _ hb))]

theorem jsTrim_sandwich (m : String) {a b : String} (ha : jsTrim a = a)
    (hane : a ≠ "") (hb : jsTrim b = b) (hbne : b ≠ "") :
    jsTrim (a ++ m ++ b) = a ++ m ++ b := by
  have hd : (a ++ m ++ b).data = a.data ++ m.data ++ b.data := by
    rw [String.data_append, String.data_append]
  show String.mk (trimChars (a ++ m ++ b).data) = a ++ m ++ b
  rw [hd, trimChars_eq_self ?_ ?_]
  · exact string_ext hd.symm
  · intro c hc
    rw [List.append_assoc, head?_append_left (string_data_ne_nil hane)] at hc
    exact trimmed_head_not_ws ha c hc
  · intro c hc
    rw [getLast?_append_right (string_data_ne_nil hbne)] at hc
    exact trimmed_last_not_ws hb c hc

theorem smid_key_inj {mid tok1 tok2 x y : String}
    (h1 : ∀ c ∈ tok1.data, c ≠ ':') (h2 : ∀ c ∈ tok2.data, c ≠ ':')
    (h : mid ++ "::" ++ tok1 ++ "::" ++ x = mid ++ "::" ++ tok2 ++ "::" ++ y) :
    tok1 = tok2 ∧ x = y := by
  rw [strAppend_assoc (mid ++ "::") tok1 "::",
    strAppend_assoc (mid ++ "::") (tok1 ++ "::") x,
    strAppend_assoc (mid ++ "::") tok2 "::",
    strAppend_assoc (mid ++ "::") (tok2 ++ "::") y] at h
  exact sep_parse_str h1 h2 (strAppend_left_cancel h)

theorem composeMachineAgentName_distinct {mn S : String}
    (hmn : jsTrim mn = mn) (hmnne : mn ≠ "")
    (hS : normalizeTaskSource S = S) (hSne : S ≠ "")
    (hll : jsLower mn ≠ jsLower S) :
    composeMachineAgentName mn S = mn ++ " · " ++ S := by
  unfold composeMachineAgentName
  dsimp only
  rw [normalizeAgentName_stable hmn hmnne, hS, if_neg hSne, if_neg hll]

theorem splitTasksBySource_two {S1 S2 : String} {ts1 ts2 : List InTask}
    (hS1 : normalizeTaskSource S1 = S1) (hS1ne : S1 ≠ "")
    (hS2 : normalizeTaskSource S2 = S2) (hS2ne : S2 ≠ "")
    (hk : jsLower S1 ≠ jsLower S2)
    (h1 : ∀ t ∈ ts1, t.id ≠ "" ∧ t.source = S1)
    (h2 : ∀ t ∈ ts2, t.id ≠ "" ∧ t.source = S2)
    (hne1 : ts1 ≠ []) (hne2 : ts2 ≠ []) :
    splitTasksBySource (ts1 ++ ts2) = [⟨S1, ts1⟩, ⟨S2, ts2⟩] := by
  have hf1 : ∀ t ∈ ts1, t.id ≠ "" ∧ splitKeyOf t = jsLower S1 ∧
      normalizeInTask t = t := by
    intro t ht
    obtain ⟨hid, hsrc⟩ := h1 t ht
    refine ⟨hid, ?_, normalizeInTask_fix (by rw [hsrc, hS1])⟩
    unfold splitKeyOf
    dsimp only
    rw [hsrc, hS1, if_neg hS1ne]
  have hf2 : ∀ t ∈ ts2, t.id ≠ "" ∧ splitKeyOf t = jsLower S2 ∧
      normalizeInTask t = t := by
    intro t ht
    obtain ⟨hid, hsrc⟩ := h2 t ht
    refine ⟨hid, ?_, normalizeInTask_fix (by rw [hsrc, hS2])⟩
    unfold splitKeyOf
    dsimp only
    rw [hsrc, hS2, if_neg hS2ne]
  rcases ts1 with _ | ⟨t, rest⟩
  · exact absurd rfl hne1
  rcases ts2 with _ | ⟨u, rest2⟩
  · exact absurd rfl hne2
  obtain ⟨htid, htkey, htfix⟩ := hf1 t (List.mem_cons_self _ _)
  obtain ⟨huid, hukey, hufix⟩ := hf2 u (List.mem_cons_self _ _)
  have hsrc1 : normalizeTaskSource t.source = S1 := by
    rw [(h1 t (List.mem_cons_self _ _)).2, hS1]
  have hsrc2 : normalizeTaskSource u.source = S2 := by
    rw [(h2 u (List.mem_cons_self _ _)).2, hS2]
  unfold splitTasksBySource
  rw [List.cons_append, List.foldl_cons]
  have hstep1 : splitTasksStep [] t = [] ++ [(jsLower S1, ⟨S1, [t]⟩)] := by
    unfold splitTasksStep
    rw [if_neg htid, htkey, htfix, hsrc1]
    rfl
  rw [hstep1, List.foldl_append,
    split_fold_block (jsLower S1) rest
      (fun v hv => hf1 v (List.mem_cons_of_mem _ hv)) [] ⟨S1, [t]⟩
      (by intro e he; exact absurd he (List.not_mem_nil e)),
    List.foldl_cons]
  have hstep2 : splitTasksStep ([] ++ [(jsLower S1, ⟨S1, [t] ++ rest⟩)]) u =
      [(jsLower S1, ⟨S1, [t] ++ rest⟩)] ++ [(jsLower S2, ⟨S2, [u]⟩)] := by
    unfold splitTasksStep
    rw [if_neg huid, hukey, hufix, hsrc2, List.nil_append]
    exact pushGroup_append (by
      intro e he
      rw [List.mem_singleton.mp he]
      exact fun hc => hk hc)
  rw [hstep2,
    split_fold_block (jsLower S2) rest2
      (fun v hv => hf2 v (List.mem_cons_of_mem _ hv))
      [(jsLower S1, ⟨S1, [t] ++ rest⟩)] ⟨S2, [u]⟩
      (by
        intro e he
        rw [List.mem_singleton.mp he]
        exact fun hc => hk hc)]
  simp

theorem foldl_upsert_fresh (cid gs : String) (now : Int) (ts : List InTask) :
    ∀ db : DB,
      (∀ t ∈ ts, t.id ≠ "") →
      ((ts.map InTask.id).Pairwise (· ≠ ·)) →
      (∀ t ∈ ts, ∀ tt ∈ db.tasks, ¬ (tt.id = t.id ∧ tt.machine_id = cid)) →
      (ts.foldl (upsertTask cid gs now) db).tasks =
        db.tasks ++ ts.map (freshTaskRecord cid gs now) := by
  induction ts with
  | nil => intro db _ _ _; simp
  | cons t rest ih =>
    intro db hid hpair hfree
    rw [List.map_cons] at hpair
    rcases List.pairwise_cons.mp hpair with ⟨hhead, hrest⟩
    rw [List.foldl_cons]
    have hfind : db.tasks.find? (taskMatches t.id cid) = none := by
      rw [List.find?_eq_none]
      intro tt htt hmatch
      unfold taskMatches at hmatch
      exact hfree t (List.mem_cons_self _ _) tt htt (of_decide_eq_true hmatch)
    have htasks : (upsertTask cid gs now db t).tasks =
        db.tasks ++ [freshTaskRecord cid gs now t] := by
      unfold upsertTask
      rw [if_neg (hid t (List.mem_cons_self _ _))]
      dsimp only
      rw [hfind]
      rfl
    rw [ih (upsertTask cid gs now db t)
      (fun v hv => hid v (List.mem_cons_of_mem _ hv)) hrest ?_]
    · rw [htasks, List.append_assoc, List.singleton_append, List.map_cons]
    · intro v hv tt htt hc
      rw [htasks] at htt
      rcases List.mem_append.mp htt with hold | hnew
      · exact hfree v (List.mem_cons_of_mem _ hv) tt hold hc
      · rw [List.mem_singleton.mp hnew] at hc
        exact hhead v.id (List.mem_map_of_mem _ hv) hc.1

theorem listGet_none {α : Type} {l : List (String × α)} {k : String}
    (h : ∀ e ∈ l, e.1 ≠ k) : listGet l k = none := by
  induction l with
  | nil => rfl
  | cons p rest ih =>
    unfold listGet
    rw [if_neg (h p (List.mem_cons_self _ _))]
    exact ih (fun e he => h e (List.mem_cons_of_mem _ he))

theorem dedupeMachinesStep_fresh {now : Int} {pre : List (String × Machine)}
    {m : Machine} (hid : m.id ≠ "")
    (hk : ∀ e ∈ pre, e.1 ≠
      machineIdentityKey (normalizeMachineFingerprint m.fingerprint m.id)
        (normalizeAgentName m.name m.id)) :
    dedupeMachinesStep now pre m = pre ++
      [(machineIdentityKey (normalizeMachineFingerprint m.fingerprint m.id)
          (normalizeAgentName m.name m.id),
        { id := m.id
          name := normalizeAgentName m.name m.id
          fingerprint := normalizeMachineFingerprint m.fingerprint m.id
          aliases := dedupeAliases (m.aliases ++ [m.id])
          last_seen := m.last_seen <|> some now
          online_since := m.online_since <|> m.last_seen <|> some now
          display_name := normalizeDisplayName m.display_name })] := by
  unfold dedupeMachinesStep
  rw [if_neg hid]
  dsimp only
  rw [listGet_none hk]
  exact listSet_append hk

theorem dedupeMachines_two_pairs (now : Int) (m1 m2 : Machine)
    (h1id : m1.id ≠ "") (h2id : m2.id ≠ "")
    (h1name : normalizeAgentName m1.name m1.id = m1.name)
    (h2name : normalizeAgentName m2.name m2.id = m2.name)
    (hkey : machineIdentityKey (normalizeMachineFingerprint m1.fingerprint m1.id)
        (normalizeAgentName m1.name m1.id) ≠
      machineIdentityKey (normalizeMachineFingerprint m2.fingerprint m2.id)
        (normalizeAgentName m2.name m2.id)) :
    (dedupeMachines now [m1, m2]).map (fun m => (m.id, m.name)) =
      [(m1.id, m1.name), (m2.id, m2.name)] := by
  unfold dedupeMachines
  rw [List.foldl_cons, List.foldl_cons, List.foldl_nil,
    dedupeMachinesStep_fresh h1id (by intro e he; exact absurd he (List.not_mem_nil e)),
    List.nil_append,
    dedupeMachinesStep_fresh h2id (by
      intro e he
      rw [List.mem_singleton.mp he]
      exact fun hc => hkey hc),
    List.singleton_append]
  simp only [List.map_cons, List.map_nil]
  rw [h1name, h2name]

theorem machineMatches_false {smid fp agent : String} {m : Machine}
    (hname : normalizeAgentName m.name m.id ≠ agent) :
    machineMatches smid fp agent m = false := by
  unfold machineMatches
  by_cases hid : m.id = ""
  · rw [if_pos hid]
  · rw [if_neg hid]
    dsimp only
    rw [if_neg (fun hc => hname hc.2)]
    exact decide_eq_false (fun hc => hname hc.2)

theorem mergeMachineRecords_nodup {db : DB} {canonIdx : Nat} {canon : Machine}
    (hget : db.machines.get? canonIdx = some canon)
    (hname : ∀ m ∈ db.machines,
      normalizeAgentName m.name m.id ≠ normalizeAgentName canon.name canon.id ∨
      m.id = canon.id) :
    mergeMachineRecords db canonIdx = db := by
  unfold mergeMachineRecords
  rw [hget]
  dsimp only
  split
  · rfl
  · rename_i hfull
    exfalso
    apply hfull
    rw [List.isEmpty_eq_true, List.filter_eq_nil_iff]
    intro m hm hc
    rcases of_decide_eq_true hc with ⟨h1, h2, h3, h4⟩
    rcases hname m hm with hn | hid
    · exact hn h4
    · exact h2 hid

theorem upsertMachineCard_fresh (db : DB) (smid mid mfp nm : String)
    (now : Int)
    (hfind : findMachineIdx db smid mfp nm = none)
    (htrim : jsTrim smid = smid) (hne : smid ≠ "")
    (hnoid : ∀ m ∈ db.machines, m.id ≠ smid) :
    ∃ rec : Machine,
      rec.id = smid ∧ rec.name = nm ∧ rec.fingerprint = mfp ∧
      upsertMachineCard db smid mid mfp nm now =
        ({ db with machines := db.machines ++ [rec] }, db.machines.length) := by
  have hfindid : db.machines.find? (fun m => m.id = smid) = none := by
    rw [List.find?_eq_none]
    intro m hm hmm
    exact hnoid m hm (of_decide_eq_true hmm)
  have hpick : pickMachineRecordId db smid mfp nm now = smid := by
    unfold pickMachineRecordId
    dsimp only
    simp only [htrim]
    rw [if_neg hne, hfindid]
  have hrec : newMachineRecord db smid mid mfp nm now =
      { id := smid, name := nm, fingerprint := mfp,
        aliases := dedupeAliases [smid, mid, smid],
        last_seen := some now, online_since := some now,
        display_name := "" } := by
    unfold newMachineRecord
    dsimp only
    rw [hpick, if_pos hne]
  refine ⟨newMachineRecord db smid mid mfp nm now,
    by rw [hrec], by rw [hrec], by rw [hrec], ?_⟩
  unfold upsertMachineCard
  rw [hfind]

theorem processGroup_fresh (acc : DB × String) (mid mn mfp S tok : String)
    (ts : List InTask) (now : Int)
    (hS : normalizeTaskSource S = S) (hSne : S ≠ "")
    (htok : normalizeSourceToken S = tok) (htokne : tok ≠ "")
    (htoktrim : jsTrim tok = tok)
    (hmid : jsTrim mid = mid) (hmidne : mid ≠ "")
    (hmn : jsTrim mn = mn) (hmnne : mn ≠ "")
    (hll : jsLower mn ≠ jsLower S)
    (hfind : findMachineIdx acc.1 (mid ++ "::" ++ tok) mfp
      (mn ++ " · " ++ S) = none)
    (hnoid : ∀ m ∈ acc.1.machines, m.id ≠ mid ++ "::" ++ tok)
    (hnodup : ∀ m ∈ acc.1.machines,
      normalizeAgentName m.name m.id ≠
        normalizeAgentName (mn ++ " · " ++ S) (mid ++ "::" ++ tok))
    (hts : ∀ t ∈ ts, t.id ≠ "")
    (htids : (ts.map InTask.id).Pairwise (· ≠ ·))
    (hnotask : ∀ tt ∈ acc.1.tasks, tt.machine_id ≠ mid ++ "::" ++ tok) :
    ∃ rec : Machine,
      rec.id = mid ++ "::" ++ tok ∧ rec.name = mn ++ " · " ++ S ∧
      rec.fingerprint = mfp ∧
      (processGroup mid mn mfp now acc ⟨S, ts⟩).2 = mid ++ "::" ++ tok ∧
      (processGroup mid mn mfp now acc ⟨S, ts⟩).1.machines =
        acc.1.machines ++ [rec] ∧
      (processGroup mid mn mfp now acc ⟨S, ts⟩).1.tasks =
        acc.1.tasks ++ ts.map (freshTaskRecord (mid ++ "::" ++ tok) S now) := by
  have hsmidtrim : jsTrim (mid ++ "::" ++ tok) = mid ++ "::" ++ tok :=
    jsTrim_sandwich "::" hmid hmidne htoktrim htokne
  have hsmidne : mid ++ "::" ++ tok ≠ "" :=
    strAppend_ne_nil_left tok (strAppend_ne_nil_left "::" hmidne)
  obtain ⟨rec, hrid, hrnm, hrfp, hup⟩ :=
    upsertMachineCard_fresh acc.1 (mid ++ "::" ++ tok) mid mfp
      (mn ++ " · " ++ S) now hfind hsmidtrim hsmidne hnoid
  have hcomp : composeMachineAgentName mn S = mn ++ " · " ++ S :=
    composeMachineAgentName_distinct hmn hmnne hS hSne hll
  have hget : (acc.1.machines ++ [rec]).get? acc.1.machines.length =
      some rec := by
    rw [List.get?_append_right (Nat.le_refl _), Nat.sub_self]
    rfl
  have hmerge : mergeMachineRecords
      { acc.1 with machines := acc.1.machines ++ [rec] }
      acc.1.machines.length =
      { acc.1 with machines := acc.1.machines ++ [rec] } := by
    apply mergeMachineRecords_nodup hget
    intro m hm
    rcases List.mem_append.mp hm with hold | hnew
    · left
      rw [hrnm, hrid]
      exact hnodup m hold
    · right
      rw [List.mem_singleton.mp hnew]
  have hmain : processGroup mid mn mfp now acc ⟨S, ts⟩ =
      (ts.foldl (upsertTask (mid ++ "::" ++ tok) S now)
        { acc.1 with machines := acc.1.machines ++ [rec] },
       mid ++ "::" ++ tok) := by
    unfold processGroup
    dsimp only
    rw [hS, htok, if_neg htokne, hcomp, hup]
    dsimp only
    rw [hget]
    dsimp only
    rw [hmerge, hrid]
  refine ⟨rec, hrid, hrnm, hrfp, ?_, ?_, ?_⟩
  · rw [hmain]
  · rw [hmain]
    dsimp only
    rw [foldl_upsert_machines]
  · rw [hmain]
    dsimp only
    rw [foldl_upsert_fresh (mid ++ "::" ++ tok) S now ts
      { acc.1 with machines := acc.1.machines ++ [rec] } hts htids
      (fun t ht tt htt hc => hnotask tt htt hc.2)]

/-- C5 (amended): a report against an empty store whose tasks carry two
distinct normalized sources produces exactly two Cards with the
source-qualified ids `machineId ++ "::" ++ slug(source)` and the composed
names `name · source`, each counting exactly its own group's tasks —
provided the machine id is trimmed and non-blank, the two sources are
normalization fixpoints with distinct lowercasings and distinct non-blank
slugs, the agent name differs from both sources case-insensitively, and
the task ids are non-blank, pairwise distinct and colon-free.  (Without
the name proviso a card is titled by the bare name, and with colliding
slugs the second card gets a counter-disambiguated id — see the
counterexample.) -/
theorem claim5_source_split_amended
    (mid pfn pfp mn mfp S1 S2 tok1 tok2 : String)
    (ts1 ts2 : List InTask) (nowMs : Int)
    (hmid : jsTrim mid = mid) (hmidne : mid ≠ "")
    (hmn_def : normalizeAgentName pfn mid = mn)
    (hmfp_def : normalizeMachineFingerprint pfp mid = mfp)
    (hS1 : normalizeTaskSource S1 = S1) (hS1ne : S1 ≠ "")
    (hS2 : normalizeTaskSource S2 = S2) (hS2ne : S2 ≠ "")
    (hSll : jsLower S1 ≠ jsLower S2)
    (htok1 : normalizeSourceToken S1 = tok1) (htok1ne : tok1 ≠ "")
    (htok2 : normalizeSourceToken S2 = tok2) (htok2ne : tok2 ≠ "")
    (htokne : tok1 ≠ tok2)
    (hmn1 : jsLower mn ≠ jsLower S1) (hmn2 : jsLower mn ≠ jsLower S2)
    (hts1 : ∀ t ∈ ts1, t.id ≠ "" ∧ t.source = S1)
    (hts2 : ∀ t ∈ ts2, t.id ≠ "" ∧ t.source = S2)
    (hids : ((ts1 ++ ts2).map InTask.id).Pairwise (· ≠ ·))
    (hcolon : ∀ t ∈ ts1 ++ ts2, ∀ c ∈ t.id.data, c ≠ ':')
    (hne1 : ts1 ≠ []) (hne2 : ts2 ≠ []) :
    (handleReport emptyDB ⟨mid, pfn, pfp, ts1 ++ ts2⟩ nowMs).1 =
      ReportResult.ok (mid ++ "::" ++ tok2) (ts1 ++ ts2).length ∧
    ((handleReport emptyDB ⟨mid, pfn, pfp, ts1 ++ ts2⟩ nowMs).2.machines.map
        (fun m => (m.id, m.name))) =
      [(mid ++ "::" ++ tok1, mn ++ " · " ++ S1),
       (mid ++ "::" ++ tok2, mn ++ " · " ++ S2)] ∧
    ∀ m ∈ (handleReport emptyDB ⟨mid, pfn, pfp, ts1 ++ ts2⟩ nowMs).2.machines,
      (dashboardRow
          (handleReport emptyDB ⟨mid, pfn, pfp, ts1 ++ ts2⟩ nowMs).2.tasks
          nowMs m).total_tasks =
        if m.id = mid ++ "::" ++ tok1 then ts1.length else ts2.length := by
  have hmn_tr : jsTrim mn = mn := by
    rw [← hmn_def]
    exact normalizeAgentName_trimmed pfn mid
  have hmn_ne : mn ≠ "" := by
    rw [← hmn_def]
    exact normalizeAgentName_ne_nil pfn mid
  have hmfp_tr : jsTrim mfp = mfp := by
    rw [← hmfp_def]
    exact normalizeMachineFingerprint_trimmed pfp mid
  have hmfp_ne : mfp ≠ "" := by
    rw [← hmfp_def]
    exact normalizeMachineFingerprint_ne_of_id (by rw [hmid]; exact hmidne)
  have hS1_tr : jsTrim S1 = S1 := by
    have h := normalizeTaskSource_trimmed S1
    rw [hS1] at h
    exact h
  have hS2_tr : jsTrim S2 = S2 := by
    have h := normalizeTaskSource_trimmed S2
    rw [hS2] at h
    exact h
  have htok1_tr : jsTrim tok1 = tok1 := by
    rw [← htok1]
    exact trimmed_of_no_ws (sourceToken_not_ws S1)
  have htok2_tr : jsTrim tok2 = tok2 := by
    rw [← htok2]
    exact trimmed_of_no_ws (sourceToken_not_ws S2)
  have htok1_col : ∀ c ∈ tok1.data, c ≠ ':' := by
    rw [← htok1]
    exact sourceToken_no_colon S1
  have htok2_col : ∀ c ∈ tok2.data, c ≠ ':' := by
    rw [← htok2]
    exact sourceToken_no_colon S2
  have hS1S2 : S1 ≠ S2 := fun h => hSll (by rw [h])
  have hname12 : mn ++ " · " ++ S1 ≠ mn ++ " · " ++ S2 :=
    fun h => hS1S2 (strAppend_left_cancel h)
  have hsmid12 : mid ++ "::" ++ tok1 ≠ mid ++ "::" ++ tok2 :=
    fun h => htokne (strAppend_left_cancel h)
  have hname1_tr : jsTrim (mn ++ " · " ++ S1) = mn ++ " · " ++ S1 :=
    jsTrim_sandwich " · " hmn_tr hmn_ne hS1_tr hS1ne
  have hname2_tr : jsTrim (mn ++ " · " ++ S2) = mn ++ " · " ++ S2 :=
    jsTrim_sandwich " · " hmn_tr hmn_ne hS2_tr hS2ne
  have hname1_ne : mn ++ " · " ++ S1 ≠ "" :=
    strAppend_ne_nil_left S1 (strAppend_ne_nil_left " · " hmn_ne)
  have hname2_ne : mn ++ " · " ++ S2 ≠ "" :=
    strAppend_ne_nil_left S2 (strAppend_ne_nil_left " · " hmn_ne)
  have hsmid1_ne : mid ++ "::" ++ tok1 ≠ "" :=
    strAppend_ne_nil_left tok1 (strAppend_ne_nil_left "::" hmidne)
  have hsmid2_ne : mid ++ "::" ++ tok2 ≠ "" :=
    strAppend_ne_nil_left tok2 (strAppend_ne_nil_left "::" hmidne)
  have hn12 : normalizeAgentName (mn ++ " · " ++ S1) (mid ++ "::" ++ tok1) ≠
      normalizeAgentName (mn ++ " · " ++ S2) (mid ++ "::" ++ tok2) := by
    rw [normalizeAgentName_stable hname1_tr hname1_ne,
      normalizeAgentName_stable hname2_tr hname2_ne]
    exact hname12
  have hidP : (ts1 ++ ts2).Pairwise (fun u v => u.id ≠ v.id) :=
    List.pairwise_map.mp hids
  obtain ⟨hq1, hq2, hqcross⟩ := List.pairwise_append.mp hidP
  have hp1 : (ts1.map InTask.id).Pairwise (· ≠ ·) := List.pairwise_map.mpr hq1
  have hp2 : (ts2.map InTask.id).Pairwise (· ≠ ·) := List.pairwise_map.mpr hq2
  have hsrcfix : ∀ t ∈ ts1 ++ ts2, normalizeTaskSource t.source = t.source := by
    intro t ht
    rcases List.mem_append.mp ht with h | h
    · rw [(hts1 t h).2]
      exact hS1
    · rw [(hts2 t h).2]
      exact hS2
  have hid_ne : ∀ t ∈ ts1 ++ ts2, t.id ≠ "" := by
    intro t ht
    rcases List.mem_append.mp ht with h | h
    · exact (hts1 t h).1
    · exact (hts2 t h).1
  have hkeysIn : ((ts1 ++ ts2).map dedupeInKey).Pairwise (· ≠ ·) := by
    rw [List.pairwise_map]
    apply pairwise_imp_mem ?_ hidP
    intro a ha b hb hne hkeq
    have hsa : normalizeTaskSource a.source ≠ "" := by
      rcases List.mem_append.mp ha with h | h
      · rw [(hts1 a h).2, hS1]
        exact hS1ne
      · rw [(hts2 a h).2, hS2]
        exact hS2ne
    have hsb : normalizeTaskSource b.source ≠ "" := by
      rcases List.mem_append.mp hb with h | h
      · rw [(hts1 b h).2, hS1]
        exact hS1ne
      · rw [(hts2 b h).2, hS2]
        exact hS2ne
    have hka : dedupeInKey a =
        a.id ++ "::" ++ jsLower (normalizeTaskSource a.source) := by
      unfold dedupeInKey
      dsimp only
      rw [if_neg hsa]
    have hkb : dedupeInKey b =
        b.id ++ "::" ++ jsLower (normalizeTaskSource b.source) := by
      unfold dedupeInKey
      dsimp only
      rw [if_neg hsb]
    rw [hka, hkb] at hkeq
    exact hne (sep_parse_str (hcolon a ha) (hcolon b hb) hkeq).1
  have hdedup : dedupeIncomingTasks (ts1 ++ ts2) = ts1 ++ ts2 := by
    rw [dedupeIncomingTasks_fresh hid_ne hkeysIn]
    exact map_fix (fun t ht => normalizeInTask_fix (hsrcfix t ht))
  have hsplit : splitTasksBySource (ts1 ++ ts2) = [⟨S1, ts1⟩, ⟨S2, ts2⟩] :=
    splitTasksBySource_two hS1 hS1ne hS2 hS2ne hSll hts1 hts2 hne1 hne2
  unfold handleReport
  dsimp only
  rw [if_neg hmidne]
  dsimp only
  rw [hmn_def, hmfp_def, hdedup, hsplit,
    show (if ([⟨S1, ts1⟩, ⟨S2, ts2⟩] : List TaskGroup).isEmpty then
        [(⟨"", []⟩ : TaskGroup)] else [⟨S1, ts1⟩, ⟨S2, ts2⟩]) =
      [⟨S1, ts1⟩, ⟨S2, ts2⟩] from rfl,
    show ensureDBShape nowMs emptyDB = emptyDB from rfl,
    List.foldl_cons, List.foldl_cons, List.foldl_nil]
  obtain ⟨rec1, hr1id, hr1nm, hr1fp, h1c, h1m, h1t⟩ :=
    processGroup_fresh (emptyDB, mid) mid mn mfp S1 tok1 ts1 nowMs
      hS1 hS1ne htok1 htok1ne htok1_tr hmid hmidne hmn_tr hmn_ne hmn1
      rfl
      (by intro m hm; exact absurd hm (List.not_mem_nil m))
      (by intro m hm; exact absurd hm (List.not_mem_nil m))
      (fun t ht => (hts1 t ht).1)
      hp1
      (by intro tt htt; exact absurd htt (List.not_mem_nil tt))
  generalize hg1 : processGroup mid mn mfp nowMs (emptyDB, mid) ⟨S1, ts1⟩ = pg1
  rw [hg1] at h1c h1m h1t
  simp only [emptyDB, List.nil_append] at h1m h1t
  have hmatchF : machineMatches (mid ++ "::" ++ tok2)
      (normalizeMachineFingerprint mfp (mid ++ "::" ++ tok2))
      (normalizeAgentName (mn ++ " · " ++ S2) (mid ++ "::" ++ tok2))
      rec1 = false := by
    apply machineMatches_false
    rw [hr1nm, hr1id]
    exact hn12
  have hfind2 : findMachineIdx pg1.1 (mid ++ "::" ++ tok2) mfp
      (mn ++ " · " ++ S2) = none := by
    unfold findMachineIdx
    dsimp only
    rw [h1m, List.findIdx?_cons, hmatchF]
    rfl
  have hnoid2 : ∀ m ∈ pg1.1.machines, m.id ≠ mid ++ "::" ++ tok2 := by
    intro m hm
    rw [h1m] at hm
    rw [List.mem_singleton.mp hm, hr1id]
    exact hsmid12
  have hnodup2 : ∀ m ∈ pg1.1.machines, normalizeAgentName m.name m.id ≠
      normalizeAgentName (mn ++ " · " ++ S2) (mid ++ "::" ++ tok2) := by
    intro m hm
    rw [h1m] at hm
    rw [List.mem_singleton.mp hm, hr1nm, hr1id]
    exact hn12
  have hnotask2 : ∀ tt ∈ pg1.1.tasks,
      tt.machine_id ≠ mid ++ "::" ++ tok2 := by
    intro tt htt
    rw [h1t] at htt
    rcases List.mem_map.mp htt with ⟨u, hu, huv⟩
    rw [← huv]
    exact hsmid12
  obtain ⟨rec2, hr2id, hr2nm, hr2fp, h2c, h2m, h2t⟩ :=
    processGroup_fresh pg1 mid mn mfp S2 tok2 ts2 nowMs
      hS2 hS2ne htok2 htok2ne htok2_tr hmid hmidne hmn_tr hmn_ne hmn2
      hfind2 hnoid2 hnodup2
      (fun t ht => (hts2 t ht).1)
      hp2
      hnotask2
  generalize hg2 : processGroup mid mn mfp nowMs pg1 ⟨S2, ts2⟩ = pg2
  rw [hg2] at h2c h2m h2t
  have hpairs : (ensureDBShape nowMs pg2.1).machines.map
      (fun m => (m.id, m.name)) =
      [(mid ++ "::" ++ tok1, mn ++ " · " ++ S1),
       (mid ++ "::" ++ tok2, mn ++ " · " ++ S2)] := by
    unfold ensureDBShape
    dsimp only
    rw [h2m, h1m, List.singleton_append,
      dedupeMachines_two_pairs nowMs rec1 rec2
        (by rw [hr1id]; exact hsmid1_ne)
        (by rw [hr2id]; exact hsmid2_ne)
        (by
          rw [hr1nm, hr1id]
          exact normalizeAgentName_stable hname1_tr hname1_ne _)
        (by
          rw [hr2nm, hr2id]
          exact normalizeAgentName_stable hname2_tr hname2_ne _)
        (by
          rw [hr1fp, hr1id, hr1nm, hr2fp, hr2id, hr2nm,
            normalizeMachineFingerprint_stable hmfp_tr hmfp_ne
              (mid ++ "::" ++ tok1),
            normalizeMachineFingerprint_stable hmfp_tr hmfp_ne
              (mid ++ "::" ++ tok2),
            normalizeAgentName_stable hname1_tr hname1_ne
              (mid ++ "::" ++ tok1),
            normalizeAgentName_stable hname2_tr hname2_ne
              (mid ++ "::" ++ tok2)]
          unfold machineIdentityKey
          exact fun h => hname12 (strAppend_left_cancel h)),
      hr1id, hr1nm, hr2id, hr2nm]
  have hTid : ∀ t ∈ ts1.map (freshTaskRecord (mid ++ "::" ++ tok1) S1 nowMs) ++
      ts2.map (freshTaskRecord (mid ++ "::" ++ tok2) S2 nowMs),
      ¬ (t.id = "" ∨ t.machine_id = "") := by
    intro t ht hc
    rcases List.mem_append.mp ht with h | h
    · rcases List.mem_map.mp h with ⟨u, hu, huv⟩
      rcases hc with hc | hc
      · rw [← huv] at hc
        exact (hts1 u hu).1 hc
      · rw [← huv] at hc
        exact hsmid1_ne hc
    · rcases List.mem_map.mp h with ⟨u, hu, huv⟩
      rcases hc with hc | hc
      · rw [← huv] at hc
        exact (hts2 u hu).1 hc
      · rw [← huv] at hc
        exact hsmid2_ne hc
  have hTkeys : (((ts1.map (freshTaskRecord (mid ++ "::" ++ tok1) S1 nowMs) ++
      ts2.map (freshTaskRecord (mid ++ "::" ++ tok2) S2 nowMs)).map
        (fun t => taskKey t.machine_id t.id)).Pairwise (· ≠ ·)) := by
    rw [List.map_append, List.map_map, List.map_map, List.pairwise_append]
    refine ⟨?_, ?_, ?_⟩
    · rw [List.pairwise_map]
      exact hq1.imp (fun hne hkeq => hne (strAppend_left_cancel hkeq))
    · rw [List.pairwise_map]
      exact hq2.imp (fun hne hkeq => hne (strAppend_left_cancel hkeq))
    · intro x hx y hy
      rcases List.mem_map.mp hx with ⟨u, hu, hxu⟩
      rcases List.mem_map.mp hy with ⟨v, hv, hyv⟩
      rw [← hxu, ← hyv]
      intro hkeq
      exact htokne (smid_key_inj htok1_col htok2_col hkeq).1
  have htasksF : (ensureDBShape nowMs pg2.1).tasks =
      (ts1.map (freshTaskRecord (mid ++ "::" ++ tok1) S1 nowMs) ++
       ts2.map (freshTaskRecord (mid ++ "::" ++ tok2) S2 nowMs)).map
        normalizeStoredTask := by
    unfold ensureDBShape
    dsimp only
    rw [h2t, h1t]
    exact dedupeStoredTasks_fresh hTid hTkeys
  have hcount1 : (((ts1.map (freshTaskRecord (mid ++ "::" ++ tok1) S1 nowMs) ++
      ts2.map (freshTaskRecord (mid ++ "::" ++ tok2) S2 nowMs)).map
        normalizeStoredTask).filter
      (fun t => t.machine_id = mid ++ "::" ++ tok1)).length = ts1.length := by
    rw [List.map_append, List.filter_append, List.map_map, List.map_map]
    have e1 : ((ts1.map (normalizeStoredTask ∘
        freshTaskRecord (mid ++ "::" ++ tok1) S1 nowMs)).filter
        (fun t => t.machine_id = mid ++ "::" ++ tok1)) =
        ts1.map (normalizeStoredTask ∘
          freshTaskRecord (mid ++ "::" ++ tok1) S1 nowMs) := by
      rw [List.filter_eq_self]
      intro a ha
      rcases List.mem_map.mp ha with ⟨u, hu, huv⟩
      rw [← huv]
      exact decide_eq_true rfl
    have e2 : ((ts2.map (normalizeStoredTask ∘
        freshTaskRecord (mid ++ "::" ++ tok2) S2 nowMs)).filter
        (fun t => t.machine_id = mid ++ "::" ++ tok1)) = [] := by
      rw [List.filter_eq_nil_iff]
      intro a ha hc
      rcases List.mem_map.mp ha with ⟨u, hu, huv⟩
      rw [← huv] at hc
      exact hsmid12 (of_decide_eq_true hc).symm
    rw [e1, e2]
    simp
  have hcount2 : (((ts1.map (freshTaskRecord (mid ++ "::" ++ tok1) S1 nowMs) ++
      ts2.map (freshTaskRecord (mid ++ "::" ++ tok2) S2 nowMs)).map
        normalizeStoredTask).filter
      (fun t => t.machine_id = mid ++ "::" ++ tok2)).length = ts2.length := by
    rw [List.map_append, List.filter_append, List.map_map, List.map_map]
    have e1 : ((ts1.map (normalizeStoredTask ∘
        freshTaskRecord (mid ++ "::" ++ tok1) S1 nowMs)).filter
        (fun t => t.machine_id = mid ++ "::" ++ tok2)) = [] := by
      rw [List.filter_eq_nil_iff]
      intro a ha hc
      rcases List.mem_map.mp ha with ⟨u, hu, huv⟩
      rw [← huv] at hc
      exact hsmid12 (of_decide_eq_true hc)
    have e2 : ((ts2.map (normalizeStoredTask ∘
        freshTaskRecord (mid ++ "::" ++ tok2) S2 nowMs)).filter
        (fun t => t.machine_id = mid ++ "::" ++ tok2)) =
        ts2.map (normalizeStoredTask ∘
          freshTaskRecord (mid ++ "::" ++ tok2) S2 nowMs) := by
      rw [List.filter_eq_self]
      intro a ha
      rcases List.mem_map.mp ha with ⟨u, hu, huv⟩
      rw [← huv]
      exact decide_eq_true rfl
    rw [e1, e2]
    simp
  refine ⟨?_, ?_, ?_⟩
  · dsimp only
    rw [h2c]
  · dsimp only
    exact hpairs
  · dsimp only
    intro m hm
    have hpm := List.mem_map_of_mem (fun m => (m.id, m.name)) hm
    rw [hpairs] at hpm
    rcases List.mem_cons.mp hpm with h | h
    · have hid : m.id = mid ++ "::" ++ tok1 := congrArg Prod.fst h
      rw [if_pos hid]
      unfold dashboardRow
      dsimp only
      rw [htasksF]
      simp only [hid]
      exact hcount1
    · have hid : m.id = mid ++ "::" ++ tok2 :=
        congrArg Prod.fst (List.mem_singleton.mp h)
      rw [if_neg (by rw [hid]; exact fun hc => hsmid12 hc.symm)]
      unfold dashboardRow
      dsimp only
      rw [htasksF]
      simp only [hid]
      exact hcount2

/-- C5 witness: the amended theorem applied at a concrete report with
machine `m1`/name `N` and one task each from sources `Alpha` and `Beta`:
two cards `m1::alpha` / `m1::beta` named `N · Alpha` / `N · Beta`, each
with one task. -/
theorem claim5_witness :
    (handleReport emptyDB ⟨"m1", "N", "",
        [⟨"t1", "T1", "running", "Alpha", none, none, []⟩] ++
        [⟨"t2", "T2", "done", "Beta", none, none, []⟩]⟩ 1000).1 =
      ReportResult.ok ("m1" ++ "::" ++ "beta")
        (([⟨"t1", "T1", "running", "Alpha", none, none, []⟩] ++
          [⟨"t2", "T2", "done", "Beta", none, none, []⟩] :
            List InTask)).length ∧
    ((handleReport emptyDB ⟨"m1", "N", "",
        [⟨"t1", "T1", "running", "Alpha", none, none, []⟩] ++
        [⟨"t2", "T2", "done", "Beta", none, none, []⟩]⟩ 1000).2.machines.map
        (fun m => (m.id, m.name))) =
      [("m1" ++ "::" ++ "alpha", "N" ++ " · " ++ "Alpha"),
       ("m1" ++ "::" ++ "beta", "N" ++ " · " ++ "Beta")] ∧
    ∀ m ∈ (handleReport emptyDB ⟨"m1", "N", "",
        [⟨"t1", "T1", "running", "Alpha", none, none, []⟩] ++
        [⟨"t2", "T2", "done", "Beta", none, none, []⟩]⟩ 1000).2.machines,
      (dashboardRow (handleReport emptyDB ⟨"m1", "N", "",
          [⟨"t1", "T1", "running", "Alpha", none, none, []⟩] ++
          [⟨"t2", "T2", "done", "Beta", none, none, []⟩]⟩ 1000).2.tasks
          1000 m).total_tasks =
        if m.id = "m1" ++ "::" ++ "alpha" then
          ([⟨"t1", "T1", "running", "Alpha", none, none, []⟩] :
            List InTask).length
        else
          ([⟨"t2", "T2", "done", "Beta", none, none, []⟩] :
            List InTask).length :=
  claim5_source_split_amended "m1" "N" "" "N" "m1" "Alpha" "Beta"
    "alpha" "beta"
    [⟨"t1", "T1", "running", "Alpha", none, none, []⟩]
    [⟨"t2", "T2", "done", "Beta", none, none, []⟩] 1000
    (by decide) (by decide) (by decide) (by decide) (by decide) (by decide)
    (by decide) (by decide) (by decide) (by decide) (by decide) (by decide)
    (by decide) (by decide) (by decide) (by decide) (by decide) (by decide)
    (by decide) (by decide) (by decide) (by decide)

/-- C5 counterexample to the original claim: (a) with machine name `Codex`
and task sources `Codex`/`OpenCode`, the `Codex`-group card is named just
`Codex`, not `"<name> · <source>"` = `Codex · Codex`
(`composeMachineAgentName` suppresses the suffix when name and source
coincide case-insensitively); (b) with sources `A B` and `A-B`, whose
slugs collide on `a-b`, the second card's id is the counter-disambiguated
`m1::a-b::n-a-b-1`, not `machineId ++ "::" ++ slug(source)` = `m1::a-b`.
The actually produced `(id, name)` pairs are stated first, then their
disagreement with the claimed shapes. -/
theorem claim5_counterexample :
    ((handleReport emptyDB srcTitleReport 1000).2.machines.map
        (fun m => (m.id, m.name)) =
      [("m1::codex", "Codex"), ("m1::opencode", "Codex · OpenCode")]) ∧
    ((handleReport emptyDB srcSlugReport 1000).2.machines.map
        (fun m => (m.id, m.name)) =
      [("m1::a-b", "N · A B"), ("m1::a-b::n-a-b-1", "N · A-B")]) ∧
    ((handleReport emptyDB srcTitleReport 1000).2.machines.map
        (fun m => m.name)) ≠
      ["Codex" ++ " · " ++ normalizeTaskSource "Codex",
       "Codex" ++ " · " ++ normalizeTaskSource "OpenCode"] ∧
    ((handleReport emptyDB srcSlugReport 1000).2.machines.map
        (fun m => m.id)) ≠
      ["m1" ++ "::" ++ normalizeSourceToken "A B",
       "m1" ++ "::" ++ normalizeSourceToken "A-B"] :=
  ⟨by decide, by decide, by decide, by decide⟩

end VibeBoard
